import Mathlib

/-!
Shallow embedding of the library management system core: domain value types
(Author, User, Book, LoanRecord), the date/time utilities, the flat-file CSV
persistence backend, the in-memory persistence backend, the caching backend
composing the two, and the loan lifecycle service (borrow / return / overdue
scan).  Machine integers are modelled as `Int`/`Nat`; `std::chrono::system_clock::time_point`
is modelled as an `Int` count of seconds since the epoch (the code only ever
converts through `time_t`, which has second resolution on this code path);
`std::optional` becomes `Option`; thrown exceptions become `Except` results.
All definitions are executable so that concrete runs of the code can be
evaluated inside proofs.
-/

namespace LMS

/-- Availability status of a library item (enum `AvailabilityStatus`,
declaration order AVAILABLE, BORROWED, RESERVED, MAINTENANCE). -/
inductive AvailabilityStatus where
  | AVAILABLE
  | BORROWED
  | RESERVED
  | MAINTENANCE
deriving DecidableEq, Repr

/-- The integer value of a status under `static_cast<int>` (the enum has no
explicit enumerator values, so they are 0,1,2,3 in declaration order). -/
def statusToNat : AvailabilityStatus → Nat
  | .AVAILABLE => 0
  | .BORROWED => 1
  | .RESERVED => 2
  | .MAINTENANCE => 3

/-- Inverse direction used when the file backend does
`static_cast<AvailabilityStatus>(std::stoi(...))`.  The files written by the
backend only ever contain 0..3; other values are undefined behaviour territory
in the source and are mapped to MAINTENANCE here (no theorem depends on them). -/
def statusOfInt : Int → AvailabilityStatus
  | 0 => .AVAILABLE
  | 1 => .BORROWED
  | 2 => .RESERVED
  | _ => .MAINTENANCE

/-- The error taxonomy of `domain_core/types.h`: `InvalidArgumentException`,
`NotFoundException`, `OperationFailedException`, each carrying a message. -/
inductive LmsError where
  | invalidArgument (msg : String)
  | notFound (msg : String)
  | operationFailed (msg : String)
deriving DecidableEq, Repr

/-- A single-quote character, used to build the message strings of the source
verbatim. -/
def sq : String := String.mk [Char.ofNat 39]

/-- Author value (`Author`): immutable id, mutable name. -/
structure Author where
  id : String
  name : String
deriving DecidableEq, Repr

/-- `Author::Author` with its validation (empty id / empty name throw
`InvalidArgumentException`). -/
def mkAuthor (id name : String) : Except LmsError Author :=
  if id = "" then .error (.invalidArgument "Author ID cannot be empty.")
  else if name = "" then .error (.invalidArgument "Author name cannot be empty.")
  else .ok ⟨id, name⟩

/-- User value (`User`): immutable id, mutable name. -/
structure User where
  userId : String
  name : String
deriving DecidableEq, Repr

/-- `User::User` with its validation. -/
def mkUser (userId name : String) : Except LmsError User :=
  if userId = "" then .error (.invalidArgument "User ID cannot be empty.")
  else if name = "" then .error (.invalidArgument "User name cannot be empty.")
  else .ok ⟨userId, name⟩

/-- Book value (`Book`, the only concrete `ILibraryItem`).  The author field is
a `shared_ptr<Author>` in the source; here an `Option Author` whose `none`
state corresponds to a null pointer.  The constructor (`mkBook`) rejects the
null state, so a constructed book always holds an author. -/
structure Book where
  id : String
  title : String
  author : Option Author
  isbn : String
  year : Int
  status : AvailabilityStatus
deriving DecidableEq, Repr

/-- `Book::Book` with its validation: empty id/title/isbn, non-positive year
and a null author pointer all throw `InvalidArgumentException`. -/
def mkBook (id title : String) (author : Option Author) (isbn : String)
    (year : Int) (status : AvailabilityStatus) : Except LmsError Book :=
  if id = "" then .error (.invalidArgument "Book ID cannot be empty.")
  else if title = "" then .error (.invalidArgument "Book title cannot be empty.")
  else if author = none then .error (.invalidArgument "Book author cannot be null.")
  else if isbn = "" then .error (.invalidArgument "Book ISBN cannot be empty.")
  else if year ≤ 0 then .error (.invalidArgument "Publication year must be positive.")
  else .ok ⟨id, title, author, isbn, year, status⟩

/-- Loan record value (`LoanRecord`): id, item id, user id, loan date, due
date, optional return date.  Dates are seconds since the epoch. -/
structure LoanRecord where
  recordId : String
  itemId : String
  userId : String
  loanDate : Int
  dueDate : Int
  returnDate : Option Int
deriving DecidableEq, Repr

/-- `LoanRecord::LoanRecord` with its validation: empty ids throw, and a due
date before the loan date throws.  The return date starts unset. -/
def mkLoanRecord (recordId itemId userId : String) (loanDate dueDate : Int) :
    Except LmsError LoanRecord :=
  if recordId = "" then .error (.invalidArgument "LoanRecord ID cannot be empty.")
  else if itemId = "" then .error (.invalidArgument "LoanRecord Item ID cannot be empty.")
  else if userId = "" then .error (.invalidArgument "LoanRecord User ID cannot be empty.")
  else if dueDate < loanDate then .error (.invalidArgument "Due date cannot be before loan date.")
  else .ok ⟨recordId, itemId, userId, loanDate, dueDate, none⟩

/-- `LoanRecord::setDueDate`: rejects a due date before the loan date. -/
def LoanRecord.setDueDate (r : LoanRecord) (dueDate : Int) : Except LmsError LoanRecord :=
  if dueDate < r.loanDate then .error (.invalidArgument "Due date cannot be before loan date.")
  else .ok { r with dueDate := dueDate }

/-- `LoanRecord::setReturnDate`: rejects a return date before the loan date. -/
def LoanRecord.setReturnDate (r : LoanRecord) (returnDate : Int) : Except LmsError LoanRecord :=
  if returnDate < r.loanDate then .error (.invalidArgument "Return date cannot be before loan date.")
  else .ok { r with returnDate := some returnDate }

/-- The date invariant of a loan record: due date never before the loan date,
and the return date never before the loan date when present. -/
def LoanRecord.datesInv (r : LoanRecord) : Prop :=
  r.loanDate ≤ r.dueDate ∧ ∀ rd, r.returnDate = some rd → r.loanDate ≤ rd

instance (r : LoanRecord) : Decidable r.datesInv := by
  unfold LoanRecord.datesInv
  exact instDecidableAnd

/-- One mutation of a loan record through its two mutating setters. -/
inductive LoanMut where
  | setDue (d : Int)
  | setRet (d : Int)
deriving DecidableEq, Repr

/-- The state of the C++ object after calling a setter: on success the new
state, on a throw the object is left unchanged (the setters assign only after
validation). -/
def applyLoanMut (r : LoanRecord) (m : LoanMut) : LoanRecord :=
  match m with
  | .setDue d =>
    match r.setDueDate d with
    | .ok r2 => r2
    | .error _ => r
  | .setRet d =>
    match r.setReturnDate d with
    | .ok r2 => r2
    | .error _ => r

/-! ### Decimal strings

`std::to_string` on integers and the digit parsing done by `std::stoi` /
`std::get_time`. -/

/-- One decimal digit as a character. -/
def digitToChar : Nat → Char
  | 0 => Char.ofNat 48
  | 1 => Char.ofNat 49
  | 2 => Char.ofNat 50
  | 3 => Char.ofNat 51
  | 4 => Char.ofNat 52
  | 5 => Char.ofNat 53
  | 6 => Char.ofNat 54
  | 7 => Char.ofNat 55
  | 8 => Char.ofNat 56
  | _ => Char.ofNat 57

/-- Accumulator loop producing the decimal digit characters of `n`, most
significant first.  The first argument is recursion fuel (set to `n + 1` by
the wrapper, far more than the digit count actually consumed), which keeps the
recursion structural and hence kernel-evaluable. -/
def natDecCharsCore : Nat → Nat → List Char → List Char
  | 0, _, acc => acc
  | fuel + 1, n, acc =>
    if n < 10 then digitToChar n :: acc
    else natDecCharsCore fuel (n / 10) (digitToChar (n % 10) :: acc)

/-- Decimal digit characters of a natural number, most significant first. -/
def natDecChars (n : Nat) : List Char := natDecCharsCore (n + 1) n []

/-- `std::to_string` on a natural number. -/
def natToDecStr (n : Nat) : String := String.mk (natDecChars n)

/-- `std::to_string` on an `int` / `long long`. -/
def intToDecStr (n : Int) : String :=
  if n < 0 then String.mk (Char.ofNat 45 :: natDecChars n.natAbs) else natToDecStr n.natAbs

/-- Whether a character is a decimal digit. -/
def isDecDigit (c : Char) : Bool := 48 ≤ c.toNat ∧ c.toNat ≤ 57

/-- Numeric value of a list of decimal-digit characters. -/
def decCharsToNat (cs : List Char) : Nat :=
  cs.foldl (fun n c => n * 10 + (c.toNat - 48)) 0

/-- Parse an all-digit, non-empty character run as a natural number; `none`
otherwise.  This models a numeric field scanned by `std::get_time`, which on
the strings this system produces consumes the whole field (each field sits
between literal separators of the format string). -/
def parseNatChars (cs : List Char) : Option Nat :=
  if cs ≠ [] ∧ cs.all isDecDigit then some (decCharsToNat cs) else none

/-- `std::stoi`: skip leading whitespace, optional sign, then a non-empty run
of digits (any trailing characters are ignored); throws — here `none` — when
no digits are found. -/
def parseIntCpp (s : String) : Option Int :=
  let cs := s.data.dropWhile (fun c => c = Char.ofNat 32 ∨ c = Char.ofNat 9 ∨ c = Char.ofNat 10)
  match cs with
  | c :: rest =>
    if c = Char.ofNat 45 then
      let ds := rest.takeWhile isDecDigit
      if ds = [] then none else some (-(decCharsToNat ds : Int))
    else if c = Char.ofNat 43 then
      let ds := rest.takeWhile isDecDigit
      if ds = [] then none else some (decCharsToNat ds)
    else
      let ds := (c :: rest).takeWhile isDecDigit
      if ds = [] then none else some (decCharsToNat ds)
  | [] => none

/-! ### DateTimeUtils

`DatePoint` is `Int` seconds since the epoch.  `localtime`/`mktime` are
modelled at a fixed UTC offset of zero: every claim below composes the two, and
the composition is offset-independent.  The civil-calendar conversion uses the
standard era-based algorithm for proleptic Gregorian dates, which is what the
C library implements. -/

/-- Days since 1970-01-01 of the civil date `(y, m, d)` (`mktime` at offset 0,
divided into days). -/
def daysFromCivil (y m d : Int) : Int :=
  let yAdj := if m ≤ 2 then y - 1 else y
  let era := Int.fdiv yAdj 400
  let yoe := yAdj - era * 400
  let mp := if 2 < m then m - 3 else m + 9
  let doy := Int.fdiv (153 * mp + 2) 5 + d - 1
  let doe := yoe * 365 + Int.fdiv yoe 4 - Int.fdiv yoe 100 + doy
  era * 146097 + doe - 719468

/-- Civil date `(y, m, d)` of a count of days since 1970-01-01 (`localtime` at
offset 0, date part). -/
def civilFromDays (z0 : Int) : Int × Int × Int :=
  let z := z0 + 719468
  let era := Int.fdiv z 146097
  let doe := z - era * 146097
  let yoe := Int.fdiv (doe - Int.fdiv doe 1460 + Int.fdiv doe 36524 - Int.fdiv doe 146096) 365
  let y := yoe + era * 400
  let doy := doe - (365 * yoe + Int.fdiv yoe 4 - Int.fdiv yoe 100)
  let mp := Int.fdiv (5 * doy + 2) 153
  let d := doy - Int.fdiv (153 * mp + 2) 5 + 1
  let m := if mp < 10 then mp + 3 else mp - 9
  (if m ≤ 2 then y + 1 else y, m, d)

/-- Two-digit zero-padded field (`%m`, `%d`, `%H`, `%M`, `%S`). -/
def pad2 (n : Nat) : String :=
  if n < 10 then String.mk (Char.ofNat 48 :: natDecChars n) else natToDecStr n

/-- `DateTimeUtils::formatDateTime` with the default format
`%Y-%m-%d %H:%M:%S`. -/
def formatDateTime (t : Int) : String :=
  let days := Int.fdiv t 86400
  let sod := (t - days * 86400).toNat
  let c := civilFromDays days
  intToDecStr c.1 ++ "-" ++ pad2 c.2.1.toNat ++ "-" ++ pad2 c.2.2.toNat ++ " " ++
    pad2 (sod / 3600) ++ ":" ++ pad2 (sod % 3600 / 60) ++ ":" ++ pad2 (sod % 60)

/-- `DateTimeUtils::formatDate` with the default format `%Y-%m-%d`. -/
def formatDate (t : Int) : String :=
  let days := Int.fdiv t 86400
  let c := civilFromDays days
  intToDecStr c.1 ++ "-" ++ pad2 c.2.1.toNat ++ "-" ++ pad2 c.2.2.toNat

/-- Split a character list at every occurrence of `sep` (the separator is
consumed).  `splitAtChar ',' "a,b,"` is `["a","b",""]`. -/
def splitAtChar (sep : Char) : List Char → List (List Char)
  | [] => [[]]
  | c :: cs =>
    if c = sep then [] :: splitAtChar sep cs
    else
      match splitAtChar sep cs with
      | f :: rest => (c :: f) :: rest
      | [] => [[c]]

/-- Split the six numeric components out of a `YYYY-MM-DD HH:MM:SS` string
(what `std::get_time` with `%Y-%m-%d %H:%M:%S` extracts). -/
def splitDateTimeStr (s : String) : Option (Nat × Nat × Nat × Nat × Nat × Nat) :=
  match splitAtChar (Char.ofNat 32) s.data with
  | [datePart, timePart] =>
    match splitAtChar (Char.ofNat 45) datePart, splitAtChar (Char.ofNat 58) timePart with
    | [ys, ms, ds], [hs, mins, ss] =>
      match parseNatChars ys, parseNatChars ms, parseNatChars ds,
          parseNatChars hs, parseNatChars mins, parseNatChars ss with
      | some y, some mo, some d, some h, some mi, some sec =>
        if 1 ≤ mo ∧ mo ≤ 12 ∧ 1 ≤ d ∧ d ≤ 31 ∧ h ≤ 23 ∧ mi ≤ 59 ∧ sec ≤ 59 then
          some (y, mo, d, h, mi, sec)
        else none
      | _, _, _, _, _, _ => none
    | _, _ => none
  | _ => none

/-- `DateTimeUtils::parseDate` called with format `%Y-%m-%d %H:%M:%S` (the
only format the persistence code paths use).  Crucially, after `get_time`
fills the `tm` the source explicitly zeroes `tm_hour`, `tm_min` and `tm_sec`
("Set them to 0 for midnight") before `mktime`, so the parsed time-of-day is
discarded and the result is always the midnight of the parsed civil date. -/
def parseDateFull (s : String) : Option Int :=
  match splitDateTimeStr s with
  | some (y, mo, d, _h, _mi, _sec) => some (daysFromCivil y mo d * 86400)
  | none => none

/-- `DateTimeUtils::addDays`: adds `hours(days * 24)`. -/
def addDays (t : Int) (days : Int) : Int := t + days * 24 * 3600

/-! ### The flat-file CSV layer

`FilePersistenceService` reads with `std::getline` (once per line on the
newline character, then once per field on the comma) and writes fields joined
by commas, one record per line.  Field values are escaped by substituting a
placeholder character for every literal quote and comma.  An important
`getline` subtlety is modelled exactly: a trailing empty segment yields no
token, because extracting zero characters at end-of-input sets the fail bit —
so the line `a,` parses as the single field `a`, and a record whose last field
is empty loses that field on re-read. -/

/-- Record-separator placeholder substituted for commas (`COMMA_PLACEHOLDER`,
0x1E). -/
def commaPlaceholder : Char := Char.ofNat 30

/-- Unit-separator placeholder substituted for quotes (`QUOTE_PLACEHOLDER`,
0x1F). -/
def quotePlaceholder : Char := Char.ofNat 31

/-- The literal double-quote character. -/
def quoteChar : Char := Char.ofNat 34

/-- `FilePersistenceService::escapeCsvField`: `std::replace` quotes by the
quote placeholder, then commas by the comma placeholder. -/
def escapeCsvField (s : String) : String :=
  String.mk ((s.data.map fun c => if c = quoteChar then quotePlaceholder else c).map
    fun c => if c = ',' then commaPlaceholder else c)

/-- `FilePersistenceService::unescapeCsvField`: the reverse substitutions. -/
def unescapeCsvField (s : String) : String :=
  String.mk ((s.data.map fun c => if c = quotePlaceholder then quoteChar else c).map
    fun c => if c = commaPlaceholder then ',' else c)

/-- Tokens produced by a `while (std::getline(stream, tok, sep))` loop: like
`splitAtChar`, except that a trailing empty segment yields no token (zero
characters extracted at end-of-input sets the fail bit and ends the loop). -/
def getlineTokens (sep : Char) (cs : List Char) : List (List Char) :=
  if (splitAtChar sep cs).getLast? = some [] then (splitAtChar sep cs).dropLast
  else splitAtChar sep cs

/-- `FilePersistenceService::readCsvFile` given the current file content (an
absent file is the empty string): split into lines, skip empty lines, split
each line at commas and unescape every field. -/
def readCsvFile (content : String) : List (List String) :=
  (getlineTokens (Char.ofNat 10) content.data).filterMap fun line =>
    if line = [] then none
    else some ((getlineTokens ',' line).map fun f => unescapeCsvField (String.mk f))

/-- The inner field loop of `FilePersistenceService::writeCsvFile`: write each
escaped field, with a comma after every field but the last. -/
def joinFieldsChars : List String → List Char
  | [] => []
  | [f] => (escapeCsvField f).data
  | f :: rest => (escapeCsvField f).data ++ ',' :: joinFieldsChars rest

/-- `FilePersistenceService::writeCsvFile`: truncate and write every record as
its escaped fields joined by commas, each record followed by a newline. -/
def writeCsvFile (rows : List (List String)) : String :=
  String.mk ((rows.map fun r => joinFieldsChars r ++ [Char.ofNat 10]).flatten)

/-- What one write-then-read round trip makes of a record: a single trailing
empty field is dropped by the `getline` field loop. -/
def trimTrailingEmpty (row : List String) : List String :=
  if row.getLast? = some "" then row.dropLast else row

/-- A character that survives the file layer unchanged inside a field: not a
newline (which would split the record) and not one of the two placeholder
characters (which the escaping scheme cannot distinguish from escaped
quotes/commas). -/
def benignChar (c : Char) : Prop :=
  c ≠ Char.ofNat 10 ∧ c ≠ commaPlaceholder ∧ c ≠ quotePlaceholder

instance (c : Char) : Decidable (benignChar c) := by
  unfold benignChar
  exact instDecidableAnd

/-- A field value that survives the file layer unchanged: every character
benign. -/
def benignField (s : String) : Prop :=
  ∀ c ∈ s.data, benignChar c

instance (s : String) : Decidable (benignField s) := by
  unfold benignField
  exact List.decidableBAll _ _

/-- A record that survives a write-then-read round trip exactly: benign
fields, at least one field, and a non-empty last field. -/
def benignRow (row : List String) : Prop :=
  row ≠ [] ∧ row.getLast? ≠ some "" ∧ ∀ f ∈ row, benignField f

instance (row : List String) : Decidable (benignRow row) := by
  unfold benignRow
  exact instDecidableAnd

/-! ### FilePersistenceService

Every mutation is read-whole-file / modify / rewrite-whole-file; every load is
read-whole-file / scan.  The state of the backend is the file content string
(an absent file reads as the empty string, which parses to no records). -/

/-- The update loop shared by `FilePersistenceService::saveAuthor` and
`saveUser` (the two are textually identical up to the entity): find the first
record whose first field equals `k` and assign its second field to `v`, else
append the fresh record `[k, v]`.  The assignment `record_fields[1] = ...` is
performed without a bounds check in the source; on a matched record with fewer
than two fields it indexes out of bounds (undefined behaviour), modelled as
`none`. -/
def fileSavePairRows (k v : String) : List (List String) → Option (List (List String))
  | [] => some [[k, v]]
  | fields :: rest =>
    if fields ≠ [] ∧ fields.head? = some k then
      if 2 ≤ fields.length then some ((fields.set 1 v) :: rest) else none
    else (fileSavePairRows k v rest).map (fields :: ·)

/-- The update loop of `FilePersistenceService::saveLibraryItem` and
`updateLoanRecord` (again textually identical up to the entity): the whole
first record whose first field equals `rid` is replaced by `newRow`, else
`newRow` is appended. -/
def fileUpsertRow (rid : String) (newRow : List String) :
    List (List String) → List (List String)
  | [] => [newRow]
  | fields :: rest =>
    if fields ≠ [] ∧ fields.head? = some rid then newRow :: rest
    else fields :: fileUpsertRow rid newRow rest

/-- The author-file update loop of `FilePersistenceService::saveAuthor`. -/
def fileSaveAuthorRows (a : Author) (rows : List (List String)) :
    Option (List (List String)) :=
  fileSavePairRows a.id a.name rows

/-- `FilePersistenceService::saveAuthor` on the authors-file content. -/
def fileSaveAuthor (content : String) (a : Author) : Option String :=
  (fileSaveAuthorRows a (readCsvFile content)).map writeCsvFile

/-- The scan of `FilePersistenceService::loadAuthor`: first record with
exactly two fields whose first field matches.  `make_shared<Author>` runs the
validating constructor outside any try block, so its exception propagates. -/
def fileLoadAuthorRows (aid : String) : List (List String) → Except LmsError (Option Author)
  | [] => .ok none
  | fields :: rest =>
    match fields with
    | [f0, f1] =>
      if f0 = aid then (mkAuthor f0 f1).map some else fileLoadAuthorRows aid rest
    | _ => fileLoadAuthorRows aid rest

/-- `FilePersistenceService::loadAuthor` on the authors-file content. -/
def fileLoadAuthor (content : String) (aid : String) : Except LmsError (Option Author) :=
  fileLoadAuthorRows aid (readCsvFile content)

/-- The user-file update loop of `FilePersistenceService::saveUser`; same
unchecked second-field assignment as `saveAuthor`. -/
def fileSaveUserRows (u : User) (rows : List (List String)) :
    Option (List (List String)) :=
  fileSavePairRows u.userId u.name rows

/-- `FilePersistenceService::saveUser` on the users-file content. -/
def fileSaveUser (content : String) (u : User) : Option String :=
  (fileSaveUserRows u (readCsvFile content)).map writeCsvFile

/-- The scan of `FilePersistenceService::loadUser`: first record with exactly
two fields whose first field matches and whose `User` constructor succeeds (a
constructor throw is caught, logged, and the scan continues). -/
def fileLoadUserRows (uid : String) : List (List String) → Option User
  | [] => none
  | fields :: rest =>
    match fields with
    | [f0, f1] =>
      if f0 = uid then
        match mkUser f0 f1 with
        | .ok u => some u
        | .error _ => fileLoadUserRows uid rest
      else fileLoadUserRows uid rest
    | _ => fileLoadUserRows uid rest

/-- `FilePersistenceService::loadUser` on the users-file content. -/
def fileLoadUser (content : String) (uid : String) : Option User :=
  fileLoadUserRows uid (readCsvFile content)

/-- The items-file record for a book, as written by
`FilePersistenceService::saveLibraryItem`:
`item_id,type,title,author_id,isbn,publication_year,availability_status`.
A null author pointer is written as the empty string. -/
def serializeBookRow (b : Book) : List String :=
  [b.id, "Book", b.title,
   match b.author with
   | some a => a.id
   | none => "",
   b.isbn, intToDecStr b.year, natToDecStr (statusToNat b.status)]

/-- The items-file update loop of `FilePersistenceService::saveLibraryItem`:
the whole matched record is replaced (no field indexing), else the fresh
record is appended. -/
def fileSaveLibraryItemRows (b : Book) (rows : List (List String)) :
    List (List String) :=
  fileUpsertRow b.id (serializeBookRow b) rows

/-- `FilePersistenceService::saveLibraryItem` on the items-file content. -/
def fileSaveLibraryItem (content : String) (b : Book) : String :=
  writeCsvFile (fileSaveLibraryItemRows b (readCsvFile content))

/-- The try-block of the item loaders: re-read the author file when the
author-id field is non-empty (a missing author id leaves a null author
pointer), evaluate `std::stoi` on year and status, and run the validating
`Book` constructor.  Any throw is caught by the enclosing catch, yielding
`none`. -/
def fileParseBookRow (authorsContent : String) (fields : List String) : Option Book :=
  match fields with
  | [f0, _f1, f2, f3, f4, f5, f6] =>
    match (if f3 ≠ "" then fileLoadAuthor authorsContent f3 else .ok none) with
    | .error _ => none
    | .ok authorOpt =>
      match parseIntCpp f5, parseIntCpp f6 with
      | some y, some st =>
        match mkBook f0 f2 authorOpt f4 y (statusOfInt st) with
        | .ok b => some b
        | .error _ => none
      | _, _ => none
  | _ => none

/-- The scan of `FilePersistenceService::loadLibraryItem`: first record with
at least two fields whose first field matches; if it is a seven-field `Book`
record its parse result is returned directly (the catch returns `nullopt`,
ending the scan), otherwise the scan continues. -/
def fileLoadLibraryItemRows (authorsContent : String) (itemId : String) :
    List (List String) → Option Book
  | [] => none
  | fields :: rest =>
    if 2 ≤ fields.length ∧ fields.head? = some itemId then
      if fields.get? 1 = some "Book" ∧ fields.length = 7 then
        fileParseBookRow authorsContent fields
      else fileLoadLibraryItemRows authorsContent itemId rest
    else fileLoadLibraryItemRows authorsContent itemId rest

/-- `FilePersistenceService::loadLibraryItem` on the items- and authors-file
contents. -/
def fileLoadLibraryItem (itemsContent authorsContent : String) (itemId : String) : Option Book :=
  fileLoadLibraryItemRows authorsContent itemId (readCsvFile itemsContent)

/-- The per-record body of `FilePersistenceService::loadAllLibraryItems`: a
record contributes a book when it is a seven-field `Book` record that parses;
otherwise it is logged and skipped. -/
def itemRowLoader (authorsContent : String) (fields : List String) : Option Book :=
  if 2 ≤ fields.length ∧ fields.get? 1 = some "Book" ∧ fields.length = 7 then
    fileParseBookRow authorsContent fields
  else none

/-- `FilePersistenceService::loadAllLibraryItems`: every seven-field `Book`
record that parses; records that fail to parse are logged and skipped. -/
def fileLoadAllLibraryItems (itemsContent authorsContent : String) : List Book :=
  (readCsvFile itemsContent).filterMap (itemRowLoader authorsContent)

/-- The loans-file record for a loan, as written by
`FilePersistenceService::updateLoanRecord`:
`record_id,item_id,user_id,loan_date,due_date,return_date`, dates in
`YYYY-MM-DD HH:MM:SS` format and an unset return date as the empty string. -/
def serializeLoanRow (r : LoanRecord) : List String :=
  [r.recordId, r.itemId, r.userId, formatDateTime r.loanDate, formatDateTime r.dueDate,
   match r.returnDate with
   | some t => formatDateTime t
   | none => ""]

/-- The loans-file update loop of `FilePersistenceService::updateLoanRecord`:
the whole matched record is replaced, else the fresh record is appended. -/
def fileUpdateLoanRecordRows (r : LoanRecord) (rows : List (List String)) :
    List (List String) :=
  fileUpsertRow r.recordId (serializeLoanRow r) rows

/-- `FilePersistenceService::updateLoanRecord` on the loans-file content. -/
def fileUpdateLoanRecord (content : String) (r : LoanRecord) : String :=
  writeCsvFile (fileUpdateLoanRecordRows r (readCsvFile content))

/-- `FilePersistenceService::saveLoanRecord` delegates to `updateLoanRecord`
("Same logic for save or update"). -/
def fileSaveLoanRecord (content : String) (r : LoanRecord) : String :=
  fileUpdateLoanRecord content r

/-- Parse one six-field loans record as the loaders do: both dates must parse
(else the record is skipped); the `LoanRecord` constructor may throw (caught:
skipped); a non-empty sixth field is parsed as the return date — if that parse
fails the error is only logged and the record is returned without a return
date, while a `setReturnDate` throw is caught (skipped). -/
def fileParseLoanRow (fields : List String) : Option LoanRecord :=
  match fields with
  | [f0, f1, f2, f3, f4, f5] =>
    match parseDateFull f3, parseDateFull f4 with
    | some ld, some dd =>
      match mkLoanRecord f0 f1 f2 ld dd with
      | .error _ => none
      | .ok loan =>
        if f5 = "" then some loan
        else
          match parseDateFull f5 with
          | some rd =>
            match loan.setReturnDate rd with
            | .ok l2 => some l2
            | .error _ => none
          | none => some loan
    | _, _ => none
  | _ => none

/-- The scan of `FilePersistenceService::loadLoanRecord`: first record with
exactly six fields whose first field matches and parses (all parse failures
are logged and the scan continues). -/
def fileLoadLoanRecordRows (rid : String) : List (List String) → Option LoanRecord
  | [] => none
  | fields :: rest =>
    if fields.length = 6 ∧ fields.head? = some rid then
      match fileParseLoanRow fields with
      | some l => some l
      | none => fileLoadLoanRecordRows rid rest
    else fileLoadLoanRecordRows rid rest

/-- `FilePersistenceService::loadLoanRecord` on the loans-file content. -/
def fileLoadLoanRecord (content : String) (rid : String) : Option LoanRecord :=
  fileLoadLoanRecordRows rid (readCsvFile content)

/-- The per-record body of `FilePersistenceService::loadAllLoanRecords`. -/
def loanRowLoader (fields : List String) : Option LoanRecord :=
  if fields.length = 6 then fileParseLoanRow fields else none

/-- `FilePersistenceService::loadAllLoanRecords`: every six-field record that
parses; malformed records are logged and skipped. -/
def fileLoadAllLoanRecords (content : String) : List LoanRecord :=
  (readCsvFile content).filterMap loanRowLoader

/-! ### InMemoryPersistenceService

One keyed map per entity type (`std::map`), lock-guarded; items and loans are
deep-copied on save and on load, authors are stored and returned as shared
references.  The maps are modelled as association lists with distinct keys;
`mapUpsert` realises both the find-assign-else-emplace pattern and
`m[k] = v`.  (Map iteration order — `std::map` iterates in key order — is not
load-bearing for any claim below; where a load-all result is consumed, the
theorems are order-independent or fully concrete.)  Since the model is purely
functional, the shared-reference versus deep-copy distinction degenerates to
value equality and is not observable here. -/

/-- Find the value stored under a key. -/
def mapFind (k : String) : List (String × α) → Option α
  | [] => none
  | (k2, v) :: rest => if k2 = k then some v else mapFind k rest

/-- Insert-or-assign under a key. -/
def mapUpsert (k : String) (v : α) : List (String × α) → List (String × α)
  | [] => [(k, v)]
  | (k2, v2) :: rest =>
    if k2 = k then (k2, v) :: rest else (k2, v2) :: mapUpsert k v rest

/-- The four entity maps of `InMemoryPersistenceService`. -/
structure InMemoryState where
  authors : List (String × Author)
  users : List (String × User)
  items : List (String × Book)
  loans : List (String × LoanRecord)
deriving DecidableEq, Repr

/-- The freshly constructed, empty in-memory store. -/
def InMemoryState.empty : InMemoryState := ⟨[], [], [], []⟩

/-- `InMemoryPersistenceService::saveAuthor` (null pointers are ignored; the
model passes authors by value). -/
def memSaveAuthor (S : InMemoryState) (a : Author) : InMemoryState :=
  { S with authors := mapUpsert a.id a S.authors }

/-- `InMemoryPersistenceService::loadAuthor`. -/
def memLoadAuthor (S : InMemoryState) (aid : String) : Option Author :=
  mapFind aid S.authors

/-- `InMemoryPersistenceService::loadAllAuthors`. -/
def memLoadAllAuthors (S : InMemoryState) : List Author :=
  S.authors.map Prod.snd

/-- `InMemoryPersistenceService::saveUser`. -/
def memSaveUser (S : InMemoryState) (u : User) : InMemoryState :=
  { S with users := mapUpsert u.userId u S.users }

/-- `InMemoryPersistenceService::loadUser`. -/
def memLoadUser (S : InMemoryState) (uid : String) : Option User :=
  mapFind uid S.users

/-- `InMemoryPersistenceService::loadAllUsers`. -/
def memLoadAllUsers (S : InMemoryState) : List User :=
  S.users.map Prod.snd

/-- `InMemoryPersistenceService::saveLibraryItem` (stores a clone). -/
def memSaveLibraryItem (S : InMemoryState) (b : Book) : InMemoryState :=
  { S with items := mapUpsert b.id b S.items }

/-- `InMemoryPersistenceService::loadLibraryItem` (returns a clone). -/
def memLoadLibraryItem (S : InMemoryState) (iid : String) : Option Book :=
  mapFind iid S.items

/-- `InMemoryPersistenceService::loadAllLibraryItems`. -/
def memLoadAllLibraryItems (S : InMemoryState) : List Book :=
  S.items.map Prod.snd

/-- `InMemoryPersistenceService::saveLoanRecord` (find-assign-else-emplace). -/
def memSaveLoanRecord (S : InMemoryState) (r : LoanRecord) : InMemoryState :=
  { S with loans := mapUpsert r.recordId r S.loans }

/-- `InMemoryPersistenceService::updateLoanRecord`: assigns when the id is
found and otherwise emplaces the record ("upsert behavior"), raising no
error. -/
def memUpdateLoanRecord (S : InMemoryState) (r : LoanRecord) : InMemoryState :=
  { S with loans := mapUpsert r.recordId r S.loans }

/-- `InMemoryPersistenceService::loadLoanRecord`. -/
def memLoadLoanRecord (S : InMemoryState) (rid : String) : Option LoanRecord :=
  mapFind rid S.loans

/-- `InMemoryPersistenceService::loadAllLoanRecords`. -/
def memLoadAllLoanRecords (S : InMemoryState) : List LoanRecord :=
  S.loans.map Prod.snd

/-- `InMemoryPersistenceService::loadLoanRecordsByUserId`. -/
def memLoadLoanRecordsByUserId (S : InMemoryState) (uid : String) : List LoanRecord :=
  (S.loans.map Prod.snd).filter fun r => r.userId = uid

/-- `InMemoryPersistenceService::loadLoanRecordsByItemId`. -/
def memLoadLoanRecordsByItemId (S : InMemoryState) (iid : String) : List LoanRecord :=
  (S.loans.map Prod.snd).filter fun r => r.itemId = iid

/-! ### CachingFilePersistenceService

Composes an in-memory store (serving every read and write) with a file store;
durability only through the explicit `persistAllToFile`. -/

/-- The state of `CachingFilePersistenceService`: the in-memory store plus the
four file contents of its file store. -/
structure CachingState where
  mem : InMemoryState
  fileAuthors : String
  fileUsers : String
  fileItems : String
  fileLoans : String
deriving DecidableEq, Repr

/-- `CachingFilePersistenceService::updateLoanRecord`: delegates to the
in-memory store only (no write-through). -/
def cachingUpdateLoanRecord (st : CachingState) (r : LoanRecord) : CachingState :=
  { st with mem := memUpdateLoanRecord st.mem r }

/-- `CachingFilePersistenceService::loadLoanRecord`: delegates to the
in-memory store. -/
def cachingLoadLoanRecord (st : CachingState) (rid : String) : Option LoanRecord :=
  memLoadLoanRecord st.mem rid

/-- `CachingFilePersistenceService::persistAllToFile`: write every in-memory
author, then user, then item, then loan into the file store through that
store's per-entity save operations (each an upsert on the current file
content).  The author and user saves can hit the unchecked field assignment,
hence the `Option`. -/
def persistAllToFile (st : CachingState) : Option CachingState := do
  let fa ← (memLoadAllAuthors st.mem).foldlM (fun c a => fileSaveAuthor c a) st.fileAuthors
  let fu ← (memLoadAllUsers st.mem).foldlM (fun c u => fileSaveUser c u) st.fileUsers
  let fi := (memLoadAllLibraryItems st.mem).foldl (fun c b => fileSaveLibraryItem c b) st.fileItems
  let fl := (memLoadAllLoanRecords st.mem).foldl (fun c r => fileSaveLoanRecord c r) st.fileLoans
  some { st with fileAuthors := fa, fileUsers := fu, fileItems := fi, fileLoans := fl }

/-! ### LoanService and its collaborators

The loan lifecycle manager orchestrates borrow / return / overdue-scan through
the user service, the catalog service and one persistence service.  In the
application wiring all of them share the same persistence service; the model
threads one `InMemoryState` through every call and returns it alongside the
`Except` result, so that the state at the moment of a throw is observable.
`now` and `today` are passed explicitly (the real clock is ambient). -/

/-- `CatalogService::findItemById` over the shared persistence store. -/
def catalogFindItemById (S : InMemoryState) (iid : String) :
    Except LmsError (Option Book) :=
  if iid = "" then
    .error (.invalidArgument "Item ID cannot be empty for findItemById.")
  else .ok (memLoadLibraryItem S iid)

/-- `CatalogService::updateItemStatus`: load the item, set the status on the
loaded copy, save it back. -/
def catalogUpdateItemStatus (S : InMemoryState) (iid : String)
    (newStatus : AvailabilityStatus) : Except LmsError InMemoryState :=
  if iid = "" then
    .error (.invalidArgument "Item ID cannot be empty for updateItemStatus.")
  else
    match memLoadLibraryItem S iid with
    | none =>
      .error (.notFound ("Item with ID " ++ sq ++ iid ++ sq ++ " not found for status update."))
    | some item => .ok (memSaveLibraryItem S { item with status := newStatus })

/-- `UserService::findUserById` over the shared persistence store. -/
def userFindUserById (S : InMemoryState) (uid : String) : Except LmsError (Option User) :=
  if uid = "" then
    .error (.invalidArgument "User ID cannot be empty for findUserById.")
  else .ok (memLoadUser S uid)

/-- `LoanService::getActiveLoansForUser` (the caller has already checked the
id to be non-empty): the user's loan records without a return date. -/
def activeLoansForUser (S : InMemoryState) (uid : String) : List LoanRecord :=
  (memLoadLoanRecordsByUserId S uid).filter fun r => r.returnDate = none

/-- `LoanService::generateLoanRecordId`: a fixed prefix plus the
pre-incremented process-local counter. -/
def generateLoanRecordId (counter : Nat) : String :=
  "loan_" ++ intToDecStr (counter + 1)

/-- `LoanService::borrowItem`, with the persistence state threaded through and
returned even when an exception propagates.  Steps: validate ids; validate
that the user exists; validate that the item exists and is AVAILABLE; reject a
second active loan by the same user for the same item; build the loan record
with loan date `now` and due date `now` plus the configured duration; persist
it; finally flip the item status to BORROWED (the persist-then-flip pair is
not atomic). -/
def borrowItem (S : InMemoryState) (userId itemId : String) (now : Int)
    (durationDays : Int) (counter : Nat) :
    Except LmsError (LoanRecord × Nat) × InMemoryState :=
  if userId = "" ∨ itemId = "" then
    (.error (.invalidArgument "User ID and Item ID cannot be empty for borrowing."), S)
  else
    match memLoadUser S userId with
    | none => (.error (.notFound ("User with ID " ++ sq ++ userId ++ sq ++ " not found.")), S)
    | some _ =>
      match memLoadLibraryItem S itemId with
      | none =>
        (.error (.notFound ("Library item with ID " ++ sq ++ itemId ++ sq ++ " not found.")), S)
      | some item =>
        if item.status ≠ .AVAILABLE then
          (.error (.operationFailed ("Item " ++ sq ++ itemId ++ sq ++
            " is not available for borrowing. Status: " ++
            intToDecStr (statusToNat item.status))), S)
        else if (activeLoansForUser S userId).any (fun lr => lr.itemId = itemId) then
          (.error (.operationFailed ("User " ++ sq ++ userId ++ sq ++
            " has already borrowed item " ++ sq ++ itemId ++ sq ++ ".")), S)
        else
          let loanDate := now
          let dueDate := addDays loanDate durationDays
          let loanId := generateLoanRecordId counter
          match mkLoanRecord loanId itemId userId loanDate dueDate with
          | .error e => (.error e, S)
          | .ok newLoan =>
            let S1 := memSaveLoanRecord S newLoan
            match catalogUpdateItemStatus S1 itemId .BORROWED with
            | .error e => (.error e, S1)
            | .ok S2 => (.ok (newLoan, counter + 1), S2)

/-- `LoanService::returnItem`: find the unique active loan record of this user
for this item among the item's loan records, set its return date to `now`,
persist the update, then flip the item status back to AVAILABLE. -/
def returnItem (S : InMemoryState) (userId itemId : String) (now : Int) :
    Except LmsError Unit × InMemoryState :=
  if userId = "" ∨ itemId = "" then
    (.error (.invalidArgument "User ID and Item ID cannot be empty for returning."), S)
  else
    match (memLoadLoanRecordsByItemId S itemId).find?
        (fun r => r.userId = userId ∧ r.returnDate = none) with
    | none =>
      (.error (.notFound ("No active loan found for user " ++ sq ++ userId ++ sq ++
        " and item " ++ sq ++ itemId ++ sq ++ ".")), S)
    | some activeLoan =>
      match activeLoan.setReturnDate now with
      | .error e => (.error e, S)
      | .ok updated =>
        let S1 := memUpdateLoanRecord S updated
        match catalogUpdateItemStatus S1 itemId .AVAILABLE with
        | .error e => (.error e, S1)
        | .ok S2 => (.ok (), S2)

/-- Whether a loan record is overdue with respect to `today` (the midnight
boundary): no return date and a due date strictly before `today`. -/
def isOverdue (today : Int) (r : LoanRecord) : Prop :=
  r.returnDate = none ∧ r.dueDate < today

instance (today : Int) (r : LoanRecord) : Decidable (isOverdue today r) := by
  unfold isOverdue
  exact instDecidableAnd

/-- The notification message `LoanService::processOverdueItems` builds for one
overdue record: user name and item title are resolved best-effort, with
placeholder strings when a lookup fails. -/
def overdueMessage (S : InMemoryState) (r : LoanRecord) : String :=
  let userName :=
    match memLoadUser S r.userId with
    | some u => u.name
    | none => "Unknown User"
  let itemTitle :=
    match memLoadLibraryItem S r.itemId with
    | some b => b.title
    | none => "Unknown Item"
  "Dear " ++ userName ++ ", the item " ++ sq ++ itemTitle ++ sq ++ " (Loan ID: " ++
    r.recordId ++ ") was due on " ++ formatDate r.dueDate ++
    ". Please return it as soon as possible."

/-- The for-loop of `LoanService::processOverdueItems` over the loaded
records: send one notification — a (user id, message) pair — for every record
with no return date whose due date precedes `today`. -/
def overdueLoop (S : InMemoryState) (today : Int) : List LoanRecord → List (String × String)
  | [] => []
  | r :: rest =>
    if r.returnDate = none ∧ r.dueDate < today then
      (r.userId, overdueMessage S r) :: overdueLoop S today rest
    else overdueLoop S today rest

/-- `LoanService::processOverdueItems`: load all loan records and run the
notification loop over them. -/
def processOverdueItems (S : InMemoryState) (today : Int) : List (String × String) :=
  overdueLoop S today (memLoadAllLoanRecords S)

/-! ## Theorems -/

/-! ### Association map lemmas -/

theorem mapFind_upsert_self (k : String) (v : α) (m : List (String × α)) :
    mapFind k (mapUpsert k v m) = some v := by
  induction m with
  | nil => simp [mapFind, mapUpsert]
  | cons p rest ih =>
    obtain ⟨k2, v2⟩ := p
    by_cases h : k2 = k
    · simp [mapFind, mapUpsert, h]
    · simp [mapFind, mapUpsert, h, ih]

theorem mapFind_upsert_ne (k k2 : String) (v : α) (m : List (String × α))
    (h : k2 ≠ k) : mapFind k2 (mapUpsert k v m) = mapFind k2 m := by
  induction m with
  | nil =>
    simp only [mapUpsert, mapFind]
    rw [if_neg (fun e => h e.symm)]
  | cons p rest ih =>
    obtain ⟨k3, v3⟩ := p
    by_cases h3 : k3 = k
    · subst h3
      simp only [mapUpsert, if_pos rfl, mapFind]
      rw [if_neg (fun e : k3 = k2 => h (e.symm ▸ rfl)), if_neg (fun e : k3 = k2 => h (e.symm ▸ rfl))]
    · simp only [mapUpsert, if_neg h3, mapFind]
      by_cases h4 : k3 = k2
      · rw [if_pos h4, if_pos h4]
      · rw [if_neg h4, if_neg h4, ih]

theorem mem_values_mapUpsert (k : String) (v : α) (m : List (String × α)) (y : α)
    (hy : y ∈ (mapUpsert k v m).map Prod.snd) : y = v ∨ y ∈ m.map Prod.snd := by
  induction m with
  | nil =>
    simp only [mapUpsert, List.map_cons, List.map_nil, List.mem_cons, List.not_mem_nil,
      or_false] at hy
    exact Or.inl hy
  | cons p rest ih =>
    obtain ⟨k2, v2⟩ := p
    by_cases h : k2 = k
    · rw [show mapUpsert k v ((k2, v2) :: rest) = (k2, v) :: rest by
        simp only [mapUpsert, if_pos h], List.map_cons] at hy
      rcases List.mem_cons.mp hy with h1 | h1
      · exact Or.inl h1
      · exact Or.inr (by rw [List.map_cons]; exact List.mem_cons.mpr (Or.inr h1))
    · rw [show mapUpsert k v ((k2, v2) :: rest) = (k2, v2) :: mapUpsert k v rest by
        simp only [mapUpsert, if_neg h], List.map_cons] at hy
      rcases List.mem_cons.mp hy with h1 | h1
      · exact Or.inr (by rw [List.map_cons]; exact List.mem_cons.mpr (Or.inl h1))
      · rcases ih h1 with h2 | h2
        · exact Or.inl h2
        · exact Or.inr (by rw [List.map_cons]; exact List.mem_cons.mpr (Or.inr h2))

theorem self_mem_values_mapUpsert (k : String) (v : α) (m : List (String × α)) :
    v ∈ (mapUpsert k v m).map Prod.snd := by
  induction m with
  | nil => simp [mapUpsert]
  | cons p rest ih =>
    obtain ⟨k2, v2⟩ := p
    by_cases h : k2 = k
    · rw [show mapUpsert k v ((k2, v2) :: rest) = (k2, v) :: rest by
        simp only [mapUpsert, if_pos h], List.map_cons]
      exact List.mem_cons.mpr (Or.inl rfl)
    · rw [show mapUpsert k v ((k2, v2) :: rest) = (k2, v2) :: mapUpsert k v rest by
        simp only [mapUpsert, if_neg h], List.map_cons]
      exact List.mem_cons.mpr (Or.inr ih)

theorem find?_eq_of_unique {α : Type} (p : α → Bool) (l : List α) (x : α)
    (hx : x ∈ l) (hpx : p x = true) (huniq : ∀ y ∈ l, p y = true → y = x) :
    l.find? p = some x := by
  induction l with
  | nil => simp at hx
  | cons a rest ih =>
    by_cases hpa : p a = true
    · have : a = x := huniq a (by simp) hpa
      subst this
      simp [List.find?, hpa]
    · have hax : x ≠ a := fun e => hpa (e ▸ hpx)
      have hx2 : x ∈ rest := by
        rcases List.mem_cons.mp hx with h | h
        · exact absurd h hax
        · exact h
      have := ih hx2 (fun y hy hpy => huniq y (List.mem_cons_of_mem a hy) hpy)
      simp [List.find?, hpa, this]

/-! ### LoanRecord invariant lemmas -/

theorem mkLoanRecord_ok_inv (rid iid uid : String) (ld dd : Int) (r : LoanRecord)
    (h : mkLoanRecord rid iid uid ld dd = .ok r) : r.datesInv := by
  unfold mkLoanRecord at h
  split at h
  · exact absurd h (by simp)
  split at h
  · exact absurd h (by simp)
  split at h
  · exact absurd h (by simp)
  split at h
  · exact absurd h (by simp)
  · rename_i h4
    obtain rfl : (⟨rid, iid, uid, ld, dd, none⟩ : LoanRecord) = r := by
      injection h
    exact ⟨Int.not_lt.mp h4, by intro rd hrd; simp at hrd⟩

theorem applyLoanMut_inv (r : LoanRecord) (m : LoanMut) (h : r.datesInv) :
    (applyLoanMut r m).datesInv := by
  cases m with
  | setDue d =>
    by_cases hd : d < r.loanDate
    · simp only [applyLoanMut, LoanRecord.setDueDate, if_pos hd]
      exact h
    · simp only [applyLoanMut, LoanRecord.setDueDate, if_neg hd]
      refine ⟨Int.not_lt.mp hd, ?_⟩
      intro rd hrd
      exact h.2 rd hrd
  | setRet d =>
    by_cases hd : d < r.loanDate
    · simp only [applyLoanMut, LoanRecord.setReturnDate, if_pos hd]
      exact h
    · simp only [applyLoanMut, LoanRecord.setReturnDate, if_neg hd]
      refine ⟨h.1, ?_⟩
      intro rd hrd
      obtain rfl : d = rd := by injection hrd
      exact Int.not_lt.mp hd

theorem foldl_applyLoanMut_inv (ms : List LoanMut) (r : LoanRecord) (h : r.datesInv) :
    (ms.foldl applyLoanMut r).datesInv := by
  induction ms generalizing r with
  | nil => exact h
  | cons m rest ih => exact ih (applyLoanMut r m) (applyLoanMut_inv r m h)

theorem setDueDate_lt_error (r : LoanRecord) (d : Int) (h : d < r.loanDate) :
    r.setDueDate d = .error (.invalidArgument "Due date cannot be before loan date.") ∧
      applyLoanMut r (.setDue d) = r := by
  constructor
  · unfold LoanRecord.setDueDate
    simp [h]
  · unfold applyLoanMut LoanRecord.setDueDate
    simp [h]

theorem setReturnDate_lt_error (r : LoanRecord) (d : Int) (h : d < r.loanDate) :
    r.setReturnDate d = .error (.invalidArgument "Return date cannot be before loan date.") ∧
      applyLoanMut r (.setRet d) = r := by
  constructor
  · unfold LoanRecord.setReturnDate
    simp [h]
  · unfold applyLoanMut LoanRecord.setReturnDate
    simp [h]

/-- C8: a loan record satisfies the date invariant (due date not before the
loan date; return date, when present, not before the loan date) at
construction and after any sequence of `setDueDate` / `setReturnDate` calls,
where a call that would violate the invariant raises `InvalidArgument` and
leaves the record unchanged. -/
theorem loanRecord_dates_invariant (rid iid uid : String) (ld dd : Int)
    (r : LoanRecord) (h : mkLoanRecord rid iid uid ld dd = .ok r) (ms : List LoanMut) :
    r.datesInv ∧ (ms.foldl applyLoanMut r).datesInv ∧
    (∀ d, d < (ms.foldl applyLoanMut r).loanDate →
      (ms.foldl applyLoanMut r).setDueDate d =
        .error (.invalidArgument "Due date cannot be before loan date.") ∧
      applyLoanMut (ms.foldl applyLoanMut r) (.setDue d) = ms.foldl applyLoanMut r) ∧
    (∀ d, d < (ms.foldl applyLoanMut r).loanDate →
      (ms.foldl applyLoanMut r).setReturnDate d =
        .error (.invalidArgument "Return date cannot be before loan date.") ∧
      applyLoanMut (ms.foldl applyLoanMut r) (.setRet d) = ms.foldl applyLoanMut r) := by
  have h0 := mkLoanRecord_ok_inv rid iid uid ld dd r h
  exact ⟨h0, foldl_applyLoanMut_inv ms r h0,
    fun d hd => setDueDate_lt_error _ d hd,
    fun d hd => setReturnDate_lt_error _ d hd⟩

/-- Witness for C8 at a concrete record and mutation sequence. -/
theorem loanRecord_dates_invariant_witness :
    (List.foldl applyLoanMut ⟨"L1", "I1", "U1", 0, 10, none⟩
      [LoanMut.setDue 5, LoanMut.setRet 20, LoanMut.setDue (-3)]).datesInv :=
  (loanRecord_dates_invariant "L1" "I1" "U1" 0 10 ⟨"L1", "I1", "U1", 0, 10, none⟩
    rfl [LoanMut.setDue 5, LoanMut.setRet 20, LoanMut.setDue (-3)]).2.1

/-! ### Borrow / return theorems -/

theorem generateLoanRecordId_ne_empty (cnt : Nat) : generateLoanRecordId cnt ≠ "" := by
  unfold generateLoanRecordId
  intro h
  have h2 := congrArg String.data h
  rw [String.data_append "loan_" (intToDecStr (cnt + 1))] at h2
  exact absurd (List.append_eq_nil.mp h2).1 (by decide)

/-- C4: borrowing an item whose status is not AVAILABLE fails with
`OperationFailed`, and the persistence state — hence both the loan-record
store and the item's status — is returned unchanged. -/
theorem borrowItem_unavailable_fails (S : InMemoryState) (uid iid : String)
    (t dur : Int) (cnt : Nat) (u : User) (b : Book)
    (hu0 : uid ≠ "") (hi0 : iid ≠ "")
    (hu : memLoadUser S uid = some u) (hb : memLoadLibraryItem S iid = some b)
    (hst : b.status ≠ .AVAILABLE) :
    borrowItem S uid iid t dur cnt =
      (.error (.operationFailed ("Item " ++ sq ++ iid ++ sq ++
        " is not available for borrowing. Status: " ++
        intToDecStr (statusToNat b.status))), S) := by
  have hids : ¬(uid = "" ∨ iid = "") := by
    push_neg
    exact ⟨hu0, hi0⟩
  simp only [borrowItem, if_neg hids, hu, hb, if_pos hst]

/-- Witness for C4: a user and a BORROWED item in a concrete store. -/
theorem borrowItem_unavailable_fails_witness :
    borrowItem ⟨[], [("u1", ⟨"u1", "Ann"⟩)],
        [("b1", ⟨"b1", "T", some ⟨"a1", "A"⟩, "I", 2000, .BORROWED⟩)], []⟩
      "u1" "b1" 0 14 0 =
      (.error (.operationFailed ("Item " ++ sq ++ "b1" ++ sq ++
        " is not available for borrowing. Status: " ++
        intToDecStr (statusToNat .BORROWED))), ⟨[], [("u1", ⟨"u1", "Ann"⟩)],
        [("b1", ⟨"b1", "T", some ⟨"a1", "A"⟩, "I", 2000, .BORROWED⟩)], []⟩) :=
  borrowItem_unavailable_fails _ "u1" "b1" 0 14 0 ⟨"u1", "Ann"⟩
    ⟨"b1", "T", some ⟨"a1", "A"⟩, "I", 2000, .BORROWED⟩
    (by decide) (by decide) rfl rfl (by decide)

/-- Full characterization of a successful borrow: the result is the freshly
generated loan record with loan date `t` and due date `t` plus the configured
duration, the record is saved, and the item is re-saved with status BORROWED
(shared helper behind C5 and C6). -/
theorem borrowItem_ok_spec (S : InMemoryState) (uid : String)
    (t dur : Int) (cnt : Nat) (u : User) (b : Book)
    (hu0 : uid ≠ "") (hi0 : b.id ≠ "")
    (hu : memLoadUser S uid = some u) (hb : memLoadLibraryItem S b.id = some b)
    (hst : b.status = .AVAILABLE)
    (hno : ∀ r ∈ activeLoansForUser S uid, r.itemId ≠ b.id)
    (hdur : 0 ≤ dur) :
    borrowItem S uid b.id t dur cnt =
      (.ok (⟨generateLoanRecordId cnt, b.id, uid, t, addDays t dur, none⟩, cnt + 1),
       memSaveLibraryItem
         (memSaveLoanRecord S ⟨generateLoanRecordId cnt, b.id, uid, t, addDays t dur, none⟩)
         { b with status := .BORROWED }) := by
  have hids : ¬(uid = "" ∨ b.id = "") := by
    push_neg
    exact ⟨hu0, hi0⟩
  have hstn : ¬b.status ≠ .AVAILABLE := by
    simp [hst]
  have hany : (activeLoansForUser S uid).any (fun lr => lr.itemId = b.id) = false := by
    rw [List.any_eq_false]
    intro r hr
    simp [hno r hr]
  have hmk : mkLoanRecord (generateLoanRecordId cnt) b.id uid t (addDays t dur) =
      .ok ⟨generateLoanRecordId cnt, b.id, uid, t, addDays t dur, none⟩ := by
    unfold mkLoanRecord
    rw [if_neg (generateLoanRecordId_ne_empty cnt), if_neg hi0, if_neg hu0,
      if_neg (by unfold addDays; omega)]
  set newLoan : LoanRecord := ⟨generateLoanRecordId cnt, b.id, uid, t, addDays t dur, none⟩
    with hnl
  have hload1 : memLoadLibraryItem (memSaveLoanRecord S newLoan) b.id = some b := hb
  have hupd : catalogUpdateItemStatus (memSaveLoanRecord S newLoan) b.id .BORROWED =
      .ok (memSaveLibraryItem (memSaveLoanRecord S newLoan) { b with status := .BORROWED }) := by
    unfold catalogUpdateItemStatus
    rw [if_neg hi0, hload1]
  simp only [borrowItem, if_neg hids, hu, hb, if_neg hstn, hany, hmk, hupd]
  simp

/-- C5: borrowing an AVAILABLE item by an existing user with no prior active
loan for it succeeds with the configured duration of 14 days: the new loan
record has due date equal to the loan date plus 14 days and no return date,
it is persisted, and the item's status becomes BORROWED. -/
theorem borrowItem_available_succeeds (S : InMemoryState) (uid iid : String)
    (t : Int) (cnt : Nat) (u : User) (b : Book)
    (hu0 : uid ≠ "") (hi0 : iid ≠ "")
    (hu : memLoadUser S uid = some u) (hb : memLoadLibraryItem S iid = some b)
    (hbid : b.id = iid) (hst : b.status = .AVAILABLE)
    (hno : ∀ r ∈ activeLoansForUser S uid, r.itemId ≠ iid) :
    ∃ r S2, borrowItem S uid iid t 14 cnt = (.ok (r, cnt + 1), S2) ∧
      r.loanDate = t ∧ r.dueDate = addDays r.loanDate 14 ∧ r.returnDate = none ∧
      memLoadLoanRecord S2 r.recordId = some r ∧
      memLoadLibraryItem S2 iid = some { b with status := .BORROWED } := by
  subst hbid
  refine ⟨⟨generateLoanRecordId cnt, b.id, uid, t, addDays t 14, none⟩,
    memSaveLibraryItem
      (memSaveLoanRecord S ⟨generateLoanRecordId cnt, b.id, uid, t, addDays t 14, none⟩)
      { b with status := .BORROWED },
    borrowItem_ok_spec S uid t 14 cnt u b hu0 hi0 hu hb hst hno (by omega),
    rfl, rfl, rfl, ?_, ?_⟩
  · exact mapFind_upsert_self _ _ S.loans
  · exact mapFind_upsert_self b.id { b with status := .BORROWED }
      (memSaveLoanRecord S ⟨generateLoanRecordId cnt, b.id, uid, t, addDays t 14, none⟩).items

/-- Witness for C5 in a concrete store with one user and one AVAILABLE item. -/
theorem borrowItem_available_succeeds_witness :
    ∃ r S2, borrowItem ⟨[], [("u1", ⟨"u1", "Ann"⟩)],
        [("b1", ⟨"b1", "T", some ⟨"a1", "A"⟩, "I", 2000, .AVAILABLE⟩)], []⟩
        "u1" "b1" 1000 14 0 = (.ok (r, 1), S2) ∧
      r.loanDate = 1000 ∧ r.dueDate = addDays r.loanDate 14 ∧ r.returnDate = none ∧
      memLoadLoanRecord S2 r.recordId = some r ∧
      memLoadLibraryItem S2 "b1" =
        some { (⟨"b1", "T", some ⟨"a1", "A"⟩, "I", 2000, .AVAILABLE⟩ : Book) with
          status := .BORROWED } :=
  borrowItem_available_succeeds _ "u1" "b1" 1000 0 ⟨"u1", "Ann"⟩
    ⟨"b1", "T", some ⟨"a1", "A"⟩, "I", 2000, .AVAILABLE⟩
    (by decide) (by decide) rfl rfl rfl rfl
    (by intro r hr; simp [activeLoansForUser, memLoadLoanRecordsByUserId] at hr)

/-- Full characterization of a successful return: the found active loan gets
`t2` as return date, the update is persisted, and the item is re-saved with
status AVAILABLE (shared helper behind C6). -/
theorem returnItem_ok_spec (S2 : InMemoryState) (uid iid : String) (t2 : Int)
    (hu0 : uid ≠ "") (hi0 : iid ≠ "")
    (active : LoanRecord)
    (hfind : (memLoadLoanRecordsByItemId S2 iid).find?
      (fun r => r.userId = uid ∧ r.returnDate = none) = some active)
    (ht : ¬t2 < active.loanDate)
    (b2 : Book)
    (hload : memLoadLibraryItem
      (memUpdateLoanRecord S2 { active with returnDate := some t2 }) iid = some b2) :
    returnItem S2 uid iid t2 =
      (.ok (), memSaveLibraryItem
        (memUpdateLoanRecord S2 { active with returnDate := some t2 })
        { b2 with status := .AVAILABLE }) := by
  have hids : ¬(uid = "" ∨ iid = "") := by
    push_neg
    exact ⟨hu0, hi0⟩
  have hset : active.setReturnDate t2 = .ok { active with returnDate := some t2 } := by
    unfold LoanRecord.setReturnDate
    rw [if_neg ht]
  have hupd : catalogUpdateItemStatus
      (memUpdateLoanRecord S2 { active with returnDate := some t2 }) iid .AVAILABLE =
      .ok (memSaveLibraryItem
        (memUpdateLoanRecord S2 { active with returnDate := some t2 })
        { b2 with status := .AVAILABLE }) := by
    unfold catalogUpdateItemStatus
    rw [if_neg hi0, hload]
  simp only [returnItem, if_neg hids, hfind, hset, hupd]

/-- C6: for a valid (user, item) pair with the item AVAILABLE, borrow followed
by return leaves the item AVAILABLE again, and the resulting loan record has a
return date that is at least its loan date. -/
theorem borrow_then_return_roundtrip (S : InMemoryState) (uid iid : String)
    (t1 t2 dur : Int) (cnt : Nat) (u : User) (b : Book)
    (hu0 : uid ≠ "") (hi0 : iid ≠ "")
    (hu : memLoadUser S uid = some u) (hb : memLoadLibraryItem S iid = some b)
    (hbid : b.id = iid) (hst : b.status = .AVAILABLE)
    (hno : ∀ r ∈ activeLoansForUser S uid, r.itemId ≠ iid)
    (hdur : 0 ≤ dur) (ht : t1 ≤ t2) :
    ∃ r S2 S3, borrowItem S uid iid t1 dur cnt = (.ok (r, cnt + 1), S2) ∧
      returnItem S2 uid iid t2 = (.ok (), S3) ∧
      (∃ bf, memLoadLibraryItem S3 iid = some bf ∧ bf.status = .AVAILABLE) ∧
      (∃ r2 rt, memLoadLoanRecord S3 r.recordId = some r2 ∧
        r2.returnDate = some rt ∧ r2.loanDate ≤ rt) := by
  subst hbid
  set newLoan : LoanRecord := ⟨generateLoanRecordId cnt, b.id, uid, t1, addDays t1 dur, none⟩
    with hnl
  set S2 : InMemoryState :=
    memSaveLibraryItem (memSaveLoanRecord S newLoan) { b with status := .BORROWED } with hs2
  have hborrow : borrowItem S uid b.id t1 dur cnt = (.ok (newLoan, cnt + 1), S2) :=
    borrowItem_ok_spec S uid t1 dur cnt u b hu0 hi0 hu hb hst hno hdur
  have hfind : (memLoadLoanRecordsByItemId S2 b.id).find?
      (fun r => r.userId = uid ∧ r.returnDate = none) = some newLoan := by
    apply find?_eq_of_unique
    · exact List.mem_filter.mpr
        ⟨self_mem_values_mapUpsert newLoan.recordId newLoan S.loans, by simp⟩
    · simp
    · intro y hy hpy
      have hy2 := List.mem_filter.mp hy
      have hpy2 : y.userId = uid ∧ y.returnDate = none := by
        simpa using hpy
      have hyitem : y.itemId = b.id := by
        simpa using hy2.2
      rcases mem_values_mapUpsert newLoan.recordId newLoan S.loans y hy2.1 with h1 | h1
      · exact h1
      · exfalso
        have hyu : y ∈ memLoadLoanRecordsByUserId S uid :=
          List.mem_filter.mpr ⟨h1, by simp [hpy2.1]⟩
        have hya : y ∈ activeLoansForUser S uid :=
          List.mem_filter.mpr ⟨hyu, by simp [hpy2.2]⟩
        exact hno y hya hyitem
  have hload : memLoadLibraryItem
      (memUpdateLoanRecord S2 { newLoan with returnDate := some t2 }) b.id =
      some { b with status := .BORROWED } := by
    rw [hs2]
    exact mapFind_upsert_self b.id { b with status := .BORROWED }
      (memSaveLoanRecord S newLoan).items
  have hreturn := returnItem_ok_spec S2 uid b.id t2 hu0 hi0 newLoan hfind
    (by show ¬t2 < t1; omega) { b with status := .BORROWED } hload
  refine ⟨newLoan, S2,
    memSaveLibraryItem (memUpdateLoanRecord S2 { newLoan with returnDate := some t2 })
      { { b with status := .BORROWED } with status := .AVAILABLE },
    hborrow, hreturn, ⟨{ { b with status := .BORROWED } with status := .AVAILABLE }, ?_, rfl⟩,
    ⟨{ newLoan with returnDate := some t2 }, t2, ?_, rfl, ht⟩⟩
  · exact mapFind_upsert_self b.id _
      (memUpdateLoanRecord S2 { newLoan with returnDate := some t2 }).items
  · exact mapFind_upsert_self newLoan.recordId { newLoan with returnDate := some t2 } S2.loans

/-! ### File-backend loan-record round trip (C1) -/

/-- C1: the File backend's save-then-load round trip fails for loan records.
First failure: a record with no return date serializes with a trailing empty
field, so its line ends in a comma; on re-read the `getline` field loop drops
that empty field, the record parses to five fields, the six-field check
rejects it, and `loadLoanRecord` finds nothing.  Second failure: even a record
with all six fields non-empty (return date set) comes back with every date
truncated to midnight, because `parseDate` zeroes the time-of-day before
`mktime` even when invoked with the full `%Y-%m-%d %H:%M:%S` format.  The
concrete input uses loan date 2024-01-01 14:30:00 (1704119400), due date
2024-01-15 14:30:00 (1705329000) and return date 2024-01-15 15:30:00
(1705332600); midnight of those days is 1704067200 and 1705276800. -/
theorem fileLoanRecord_roundtrip_bug :
    fileSaveLoanRecord "" ⟨"loan_1", "b1", "u1", 1704119400, 1705329000, none⟩ =
      "loan_1,b1,u1,2024-01-01 14:30:00,2024-01-15 14:30:00,\n" ∧
    fileLoadLoanRecord "loan_1,b1,u1,2024-01-01 14:30:00,2024-01-15 14:30:00,\n"
      "loan_1" = none ∧
    fileLoadLoanRecord
      (fileSaveLoanRecord "" ⟨"loan_2", "b1", "u1", 1704119400, 1705329000, some 1705332600⟩)
      "loan_2" = some ⟨"loan_2", "b1", "u1", 1704067200, 1705276800, some 1705276800⟩ := by
  refine ⟨by decide, by decide, by decide⟩

/-! ### Update-as-upsert across the three backends (C9) -/

/-- C9 counterexample: in the File backend, `updateLoanRecord` with an id
absent from the (empty) loans file does insert a record, but the subsequent
`loadLoanRecord` of that id does not return it — the inserted active record
(no return date) is unreadable because of the trailing-comma line it
produces. -/
theorem updateLoanRecord_absent_file_cex :
    fileLoadLoanRecord
      (fileUpdateLoanRecord "" ⟨"loan_9", "b1", "u1", 1704067200, 1705276800, none⟩)
      "loan_9" = none := by
  decide

/-! ### CSV write-then-read round-trip machinery -/

theorem digitToChar_benignChar (d : Nat) : benignChar (digitToChar d) := by
  unfold digitToChar
  split <;> decide

theorem natDecCharsCore_forall (P : Char → Prop) (hd : ∀ d, P (digitToChar d)) :
    ∀ (fuel n : Nat) (acc : List Char), (∀ c ∈ acc, P c) →
      ∀ c ∈ natDecCharsCore fuel n acc, P c := by
  intro fuel
  induction fuel with
  | zero =>
    intro n acc hacc c hc
    exact hacc c hc
  | succ fuel ih =>
    intro n acc hacc c hc
    simp only [natDecCharsCore] at hc
    by_cases h : n < 10
    · rw [if_pos h] at hc
      rcases List.mem_cons.mp hc with h1 | h1
      · exact h1 ▸ hd n
      · exact hacc c h1
    · rw [if_neg h] at hc
      exact ih (n / 10) (digitToChar (n % 10) :: acc)
        (fun c2 hc2 => (List.mem_cons.mp hc2).elim (fun e => e ▸ hd _) (hacc c2)) c hc

theorem natDecCharsCore_ne_nil :
    ∀ (fuel n : Nat) (acc : List Char), acc ≠ [] ∨ fuel ≠ 0 →
      natDecCharsCore fuel n acc ≠ [] := by
  intro fuel
  induction fuel with
  | zero =>
    intro n acc h
    rcases h with h | h
    · exact h
    · exact absurd rfl h
  | succ fuel ih =>
    intro n acc _
    simp only [natDecCharsCore]
    by_cases h : n < 10
    · rw [if_pos h]
      exact List.cons_ne_nil _ _
    · rw [if_neg h]
      exact ih (n / 10) (digitToChar (n % 10) :: acc) (Or.inl (List.cons_ne_nil _ _))

theorem natDecChars_benign (n : Nat) : ∀ c ∈ natDecChars n, benignChar c :=
  natDecCharsCore_forall benignChar digitToChar_benignChar (n + 1) n []
    (by intro c hc; exact absurd hc (List.not_mem_nil c))

theorem natDecChars_ne_nil (n : Nat) : natDecChars n ≠ [] :=
  natDecCharsCore_ne_nil (n + 1) n [] (Or.inr (Nat.succ_ne_zero n))

theorem benignField_mk (l : List Char) (h : ∀ c ∈ l, benignChar c) :
    benignField (String.mk l) := h

theorem benignField_append (a b : String) (ha : benignField a) (hb : benignField b) :
    benignField (a ++ b) := by
  intro c hc
  rw [String.data_append a b] at hc
  rcases List.mem_append.mp hc with h | h
  · exact ha c h
  · exact hb c h

theorem mk_ne_empty (l : List Char) (h : l ≠ []) : String.mk l ≠ "" :=
  fun e => h (congrArg String.data e)

theorem append_ne_empty_left (a b : String) (h : a ≠ "") : (a ++ b) ≠ "" := by
  intro e
  have h2 := congrArg String.data e
  rw [String.data_append a b] at h2
  exact h (congrArg String.mk (List.append_eq_nil.mp h2).1)

theorem natToDecStr_benign (n : Nat) : benignField (natToDecStr n) :=
  benignField_mk _ (natDecChars_benign n)

theorem natToDecStr_ne_empty (n : Nat) : natToDecStr n ≠ "" :=
  mk_ne_empty _ (natDecChars_ne_nil n)

theorem intToDecStr_benign (n : Int) : benignField (intToDecStr n) := by
  unfold intToDecStr
  by_cases h : n < 0
  · rw [if_pos h]
    apply benignField_mk
    intro c hc
    rcases List.mem_cons.mp hc with h1 | h1
    · exact h1 ▸ (by decide)
    · exact natDecChars_benign _ c h1
  · rw [if_neg h]
    exact natToDecStr_benign _

theorem intToDecStr_ne_empty (n : Int) : intToDecStr n ≠ "" := by
  unfold intToDecStr
  by_cases h : n < 0
  · rw [if_pos h]
    exact mk_ne_empty _ (List.cons_ne_nil _ _)
  · rw [if_neg h]
    exact natToDecStr_ne_empty _

theorem pad2_benign (n : Nat) : benignField (pad2 n) := by
  unfold pad2
  by_cases h : n < 10
  · rw [if_pos h]
    apply benignField_mk
    intro c hc
    rcases List.mem_cons.mp hc with h1 | h1
    · exact h1 ▸ (by decide)
    · exact natDecChars_benign _ c h1
  · rw [if_neg h]
    exact natToDecStr_benign _

theorem pad2_ne_empty (n : Nat) : pad2 n ≠ "" := by
  unfold pad2
  by_cases h : n < 10
  · rw [if_pos h]
    exact mk_ne_empty _ (List.cons_ne_nil _ _)
  · rw [if_neg h]
    exact natToDecStr_ne_empty _

theorem formatDateTime_benign (t : Int) : benignField (formatDateTime t) := by
  unfold formatDateTime
  refine benignField_append _ _ ?_ (pad2_benign _)
  refine benignField_append _ _ ?_ (by decide)
  refine benignField_append _ _ ?_ (pad2_benign _)
  refine benignField_append _ _ ?_ (by decide)
  refine benignField_append _ _ ?_ (pad2_benign _)
  refine benignField_append _ _ ?_ (by decide)
  refine benignField_append _ _ ?_ (pad2_benign _)
  refine benignField_append _ _ ?_ (by decide)
  refine benignField_append _ _ ?_ (pad2_benign _)
  refine benignField_append _ _ (intToDecStr_benign _) (by decide)

theorem formatDateTime_ne_empty (t : Int) : formatDateTime t ≠ "" := by
  unfold formatDateTime
  iterate 9 refine append_ne_empty_left _ _ ?_
  exact append_ne_empty_left _ _ (intToDecStr_ne_empty _)

theorem benign_char_roundtrip (c : Char) (hb : benignChar c) :
    (fun c => if c = commaPlaceholder then ',' else c)
      ((fun c => if c = quotePlaceholder then quoteChar else c)
        ((fun c => if c = ',' then commaPlaceholder else c)
          ((fun c => if c = quoteChar then quotePlaceholder else c) c))) = c := by
  by_cases h1 : c = quoteChar
  · subst h1
    decide
  · by_cases h2 : c = ','
    · subst h2
      decide
    · show (fun c => if c = commaPlaceholder then ',' else c)
        ((fun c => if c = quotePlaceholder then quoteChar else c)
          ((fun c => if c = ',' then commaPlaceholder else c)
            (if c = quoteChar then quotePlaceholder else c))) = c
      rw [if_neg h1]
      show (fun c => if c = commaPlaceholder then ',' else c)
        ((fun c => if c = quotePlaceholder then quoteChar else c)
          (if c = ',' then commaPlaceholder else c)) = c
      rw [if_neg h2]
      show (fun c => if c = commaPlaceholder then ',' else c)
        (if c = quotePlaceholder then quoteChar else c) = c
      rw [if_neg hb.2.2]
      show (if c = commaPlaceholder then ',' else c) = c
      rw [if_neg hb.2.1]

theorem unescape_escape (f : String) (hf : benignField f) :
    unescapeCsvField (escapeCsvField f) = f := by
  unfold unescapeCsvField escapeCsvField
  refine congrArg String.mk ?_
  show ((((f.data.map _).map _).map _).map _) = f.data
  rw [List.map_map, List.map_map, List.map_map]
  refine (List.map_congr_left fun c hc => ?_).trans (List.map_id f.data)
  simp only [Function.comp_apply, id_eq]
  exact benign_char_roundtrip c (hf c hc)

theorem escape_no_comma (f : String) : ∀ c ∈ (escapeCsvField f).data, c ≠ ',' := by
  intro c hc
  unfold escapeCsvField at hc
  show c ≠ ','
  have hc2 : c ∈ (f.data.map fun c => if c = quoteChar then quotePlaceholder else c).map
      fun c => if c = ',' then commaPlaceholder else c := hc
  obtain ⟨c2, _, rfl⟩ := List.mem_map.mp hc2
  by_cases h : c2 = ','
  · rw [if_pos h]
    decide
  · rw [if_neg h]
    exact h

theorem escape_no_newline (f : String) (hf : benignField f) :
    ∀ c ∈ (escapeCsvField f).data, c ≠ Char.ofNat 10 := by
  intro c hc
  unfold escapeCsvField at hc
  have hc2 : c ∈ (f.data.map fun c => if c = quoteChar then quotePlaceholder else c).map
      fun c => if c = ',' then commaPlaceholder else c := hc
  obtain ⟨c2, hc2m, rfl⟩ := List.mem_map.mp hc2
  obtain ⟨c3, hc3m, rfl⟩ := List.mem_map.mp hc2m
  have hb := hf c3 hc3m
  by_cases h3 : c3 = quoteChar
  · rw [if_pos h3]
    by_cases h4 : quotePlaceholder = ','
    · exact absurd h4 (by decide)
    · rw [if_neg h4]
      decide
  · rw [if_neg h3]
    by_cases h4 : c3 = ','
    · rw [if_pos h4]
      decide
    · rw [if_neg h4]
      exact hb.1

theorem escape_data_eq_nil (f : String) : (escapeCsvField f).data = [] ↔ f.data = [] := by
  unfold escapeCsvField
  show ((f.data.map _).map _) = [] ↔ _
  rw [List.map_eq_nil_iff, List.map_eq_nil_iff]

theorem splitAtChar_ne_nil (sep : Char) (l : List Char) : splitAtChar sep l ≠ [] := by
  cases l with
  | nil => exact List.cons_ne_nil _ _
  | cons c cs =>
    simp only [splitAtChar]
    by_cases h : c = sep
    · rw [if_pos h]
      exact List.cons_ne_nil _ _
    · rw [if_neg h]
      rcases hs : splitAtChar sep cs with _ | ⟨f, rest⟩
      · exact List.cons_ne_nil _ _
      · exact List.cons_ne_nil _ _

theorem splitAtChar_no_sep (sep : Char) (l : List Char) (h : sep ∉ l) :
    splitAtChar sep l = [l] := by
  induction l with
  | nil => rfl
  | cons c cs ih =>
    have hc : c ≠ sep := fun e => h (e ▸ List.mem_cons.mpr (Or.inl rfl))
    simp only [splitAtChar, if_neg hc]
    rw [ih (fun hm => h (List.mem_cons.mpr (Or.inr hm)))]

theorem splitAtChar_append_sep (sep : Char) (l rest : List Char) (h : sep ∉ l) :
    splitAtChar sep (l ++ sep :: rest) = l :: splitAtChar sep rest := by
  induction l with
  | nil =>
    show splitAtChar sep (sep :: rest) = [] :: splitAtChar sep rest
    simp [splitAtChar]
  | cons c cs ih =>
    have hc : c ≠ sep := fun e => h (e ▸ List.mem_cons.mpr (Or.inl rfl))
    have hrec := ih fun hm => h (List.mem_cons.mpr (Or.inr hm))
    show splitAtChar sep (c :: (cs ++ sep :: rest)) = (c :: cs) :: splitAtChar sep rest
    rw [show splitAtChar sep (c :: (cs ++ sep :: rest)) =
        match splitAtChar sep (cs ++ sep :: rest) with
        | f :: r => (c :: f) :: r
        | [] => [[c]] from by
      simp only [splitAtChar, if_neg hc]]
    rw [hrec]

theorem splitAtChar_joinFields (row : List String) (h : row ≠ []) :
    splitAtChar ',' (joinFieldsChars row) = row.map fun f => (escapeCsvField f).data := by
  induction row with
  | nil => exact absurd rfl h
  | cons f rest ih =>
    cases rest with
    | nil =>
      show splitAtChar ',' (escapeCsvField f).data = [(escapeCsvField f).data]
      exact splitAtChar_no_sep ',' _ (fun hm => escape_no_comma f ',' hm rfl)
    | cons g rest2 =>
      show splitAtChar ',' ((escapeCsvField f).data ++ ',' :: joinFieldsChars (g :: rest2)) = _
      rw [splitAtChar_append_sep ',' _ _ (fun hm => escape_no_comma f ',' hm rfl)]
      rw [ih (List.cons_ne_nil _ _)]
      rfl

theorem getlineTokens_joinFields (row : List String) (h : row ≠ []) :
    getlineTokens ',' (joinFieldsChars row) =
      (trimTrailingEmpty row).map fun f => (escapeCsvField f).data := by
  unfold getlineTokens trimTrailingEmpty
  rw [splitAtChar_joinFields row h]
  rw [List.getLast?_map _ row]
  by_cases hl : row.getLast? = some ""
  · rw [hl]
    rw [if_pos (show Option.map (fun f => (escapeCsvField f).data) (some "") = some [] from rfl)]
    rw [if_pos rfl, List.map_dropLast]
  · have hne : (Option.map (fun f => (escapeCsvField f).data) row.getLast?) ≠ some [] := by
      intro e
      cases hg : row.getLast? with
      | none => rw [hg] at e; exact Option.noConfusion e
      | some g =>
        rw [hg] at e
        have : (escapeCsvField g).data = [] := Option.some.inj e
        have hgnil : g.data = [] := (escape_data_eq_nil g).mp this
        have : g = "" := congrArg String.mk hgnil
        exact hl (this ▸ hg)
    rw [if_neg hne, if_neg hl]

theorem joinFields_no_newline (row : List String) (hf : ∀ f ∈ row, benignField f) :
    Char.ofNat 10 ∉ joinFieldsChars row := by
  induction row with
  | nil => exact List.not_mem_nil _
  | cons f rest ih =>
    cases rest with
    | nil =>
      intro hm
      exact escape_no_newline f (hf f (by simp)) _ hm rfl
    | cons g rest2 =>
      intro hm
      rcases List.mem_append.mp hm with h1 | h1
      · exact escape_no_newline f (hf f (by simp)) _ h1 rfl
      · rcases List.mem_cons.mp h1 with h2 | h2
        · exact absurd h2 (by decide)
        · exact ih (fun f2 hf2 => hf f2 (List.mem_cons.mpr (Or.inr hf2))) h2

theorem joinFields_ne_nil (row : List String) (h : trimTrailingEmpty row ≠ []) :
    joinFieldsChars row ≠ [] := by
  cases row with
  | nil => exact absurd rfl h
  | cons f rest =>
    cases rest with
    | nil =>
      show (escapeCsvField f).data ≠ []
      intro e
      have hfe : f = "" := congrArg String.mk ((escape_data_eq_nil f).mp e)
      subst hfe
      exact h (by decide)
    | cons g rest2 =>
      show (escapeCsvField f).data ++ ',' :: joinFieldsChars (g :: rest2) ≠ []
      intro e
      exact List.cons_ne_nil _ _ (List.append_eq_nil.mp e).2

theorem splitAtChar_nl_flatten (rows : List (List Char))
    (h : ∀ l ∈ rows, Char.ofNat 10 ∉ l) :
    splitAtChar (Char.ofNat 10)
      ((rows.map fun l => l ++ [Char.ofNat 10]).flatten) = rows ++ [[]] := by
  induction rows with
  | nil => rfl
  | cons l rest ih =>
    show splitAtChar (Char.ofNat 10)
      ((l ++ [Char.ofNat 10]) ++ (rest.map fun l => l ++ [Char.ofNat 10]).flatten) = _
    rw [List.append_assoc, List.singleton_append]
    rw [splitAtChar_append_sep _ _ _ (h l (by simp))]
    rw [ih (fun l2 hl2 => h l2 (List.mem_cons.mpr (Or.inr hl2)))]
    rfl

theorem filterMap_eq_map_of_some {α β : Type} (f : α → Option β) (g : α → β)
    (l : List α) (h : ∀ a ∈ l, f a = some (g a)) : l.filterMap f = l.map g := by
  induction l with
  | nil => rfl
  | cons a rest ih =>
    rw [List.filterMap_cons, h a (by simp), List.map_cons,
      ih fun a2 ha2 => h a2 (List.mem_cons.mpr (Or.inr ha2))]

theorem readCsv_writeCsv (rows : List (List String))
    (h : ∀ row ∈ rows, (∀ f ∈ row, benignField f) ∧ trimTrailingEmpty row ≠ []) :
    readCsvFile (writeCsvFile rows) = rows.map trimTrailingEmpty := by
  unfold readCsvFile writeCsvFile
  show ((getlineTokens (Char.ofNat 10)
    ((rows.map fun r => joinFieldsChars r ++ [Char.ofNat 10]).flatten)).filterMap _) = _
  have hsplit : splitAtChar (Char.ofNat 10)
      (((rows.map joinFieldsChars).map fun l => l ++ [Char.ofNat 10]).flatten) =
      rows.map joinFieldsChars ++ [[]] :=
    splitAtChar_nl_flatten (rows.map joinFieldsChars) (by
      intro l hl
      obtain ⟨row, hrow, rfl⟩ := List.mem_map.mp hl
      exact joinFields_no_newline row fun f hf => (h row hrow).1 f hf)
  have hflat : (rows.map fun r => joinFieldsChars r ++ [Char.ofNat 10]).flatten =
      (((rows.map joinFieldsChars).map fun l => l ++ [Char.ofNat 10]).flatten) := by
    rw [List.map_map]
    rfl
  rw [hflat]
  unfold getlineTokens
  rw [hsplit, List.getLast?_concat, if_pos rfl, List.dropLast_concat]
  rw [List.filterMap_map]
  refine filterMap_eq_map_of_some _ trimTrailingEmpty rows fun row hrow => ?_
  obtain ⟨hben, htrim⟩ := h row hrow
  have hrne : row ≠ [] := by
    intro e
    subst e
    exact htrim rfl
  show (if joinFieldsChars row = [] then none
    else some ((getlineTokens ',' (joinFieldsChars row)).map
      fun f => unescapeCsvField (String.mk f))) = some (trimTrailingEmpty row)
  rw [if_neg (joinFields_ne_nil row htrim)]
  rw [getlineTokens_joinFields row hrne]
  rw [List.map_map]
  refine congrArg some ?_
  refine (List.map_congr_left fun f hf => ?_).trans (List.map_id (trimTrailingEmpty row))
  have hfb : benignField f := by
    apply hben
    unfold trimTrailingEmpty at hf
    by_cases hl : row.getLast? = some ""
    · rw [if_pos hl] at hf
      exact List.dropLast_subset row hf
    · rw [if_neg hl] at hf
      exact hf
  show unescapeCsvField (String.mk (escapeCsvField f).data) = id f
  exact unescape_escape f hfb

theorem trim_eq_self (row : List String) (h : row.getLast? ≠ some "") :
    trimTrailingEmpty row = row := by
  unfold trimTrailingEmpty
  rw [if_neg h]

theorem fileUpsertRow_no_match (rid : String) (newRow : List String)
    (rows : List (List String)) (h : ∀ row ∈ rows, row.head? ≠ some rid) :
    fileUpsertRow rid newRow rows = rows ++ [newRow] := by
  induction rows with
  | nil => rfl
  | cons fields rest ih =>
    have hf : ¬(fields ≠ [] ∧ fields.head? = some rid) := by
      intro hc
      exact h fields (by simp) hc.2
    simp only [fileUpsertRow, if_neg hf]
    rw [ih fun row hr => h row (List.mem_cons.mpr (Or.inr hr))]
    rfl

theorem fileLoadLoanRecordRows_skip (rid : String) (rows tailRows : List (List String))
    (h : ∀ row ∈ rows, row.head? ≠ some rid) :
    fileLoadLoanRecordRows rid (rows ++ tailRows) = fileLoadLoanRecordRows rid tailRows := by
  induction rows with
  | nil => rfl
  | cons fields rest ih =>
    have hf : ¬(fields.length = 6 ∧ fields.head? = some rid) := by
      intro hc
      exact h fields (by simp) hc.2
    show fileLoadLoanRecordRows rid (fields :: (rest ++ tailRows)) = _
    simp only [fileLoadLoanRecordRows, if_neg hf]
    exact ih fun row hr => h row (List.mem_cons.mpr (Or.inr hr))

theorem serializeLoanRow_ret (r : LoanRecord) (rt : Int) (hret : r.returnDate = some rt) :
    serializeLoanRow r = [r.recordId, r.itemId, r.userId, formatDateTime r.loanDate,
      formatDateTime r.dueDate, formatDateTime rt] := by
  unfold serializeLoanRow
  rw [hret]

theorem fileParseLoanRow_serialize (r : LoanRecord) (rt : Int)
    (hrid : r.recordId ≠ "") (hiid : r.itemId ≠ "") (huid : r.userId ≠ "")
    (hret : r.returnDate = some rt)
    (hld : parseDateFull (formatDateTime r.loanDate) = some r.loanDate)
    (hdd : parseDateFull (formatDateTime r.dueDate) = some r.dueDate)
    (hrt : parseDateFull (formatDateTime rt) = some rt)
    (hinv : r.loanDate ≤ r.dueDate) (hinv2 : r.loanDate ≤ rt) :
    fileParseLoanRow (serializeLoanRow r) = some r := by
  rw [serializeLoanRow_ret r rt hret]
  simp only [fileParseLoanRow]
  rw [hld, hdd]
  show (match mkLoanRecord r.recordId r.itemId r.userId r.loanDate r.dueDate with
    | .error _ => none
    | .ok loan =>
      if formatDateTime rt = "" then some loan
      else
        match parseDateFull (formatDateTime rt) with
        | some rd =>
          match loan.setReturnDate rd with
          | .ok l2 => some l2
          | .error _ => none
        | none => some loan) = some r
  have hmk : mkLoanRecord r.recordId r.itemId r.userId r.loanDate r.dueDate =
      .ok ⟨r.recordId, r.itemId, r.userId, r.loanDate, r.dueDate, none⟩ := by
    unfold mkLoanRecord
    rw [if_neg hrid, if_neg hiid, if_neg huid, if_neg (by omega)]
  rw [hmk]
  show (if formatDateTime rt = "" then
      some ⟨r.recordId, r.itemId, r.userId, r.loanDate, r.dueDate, none⟩
    else
      match parseDateFull (formatDateTime rt) with
      | some rd =>
        match LoanRecord.setReturnDate ⟨r.recordId, r.itemId, r.userId,
            r.loanDate, r.dueDate, none⟩ rd with
        | .ok l2 => some l2
        | .error _ => none
      | none => some ⟨r.recordId, r.itemId, r.userId, r.loanDate, r.dueDate, none⟩) = some r
  rw [if_neg (formatDateTime_ne_empty rt), hrt]
  show (match LoanRecord.setReturnDate ⟨r.recordId, r.itemId, r.userId,
      r.loanDate, r.dueDate, none⟩ rt with
    | .ok l2 => some l2
    | .error _ => none) = some r
  have hset : LoanRecord.setReturnDate ⟨r.recordId, r.itemId, r.userId,
      r.loanDate, r.dueDate, none⟩ rt =
      .ok ⟨r.recordId, r.itemId, r.userId, r.loanDate, r.dueDate, some rt⟩ := by
    unfold LoanRecord.setReturnDate
    rw [if_neg (by show ¬rt < r.loanDate; omega)]
  rw [hset]
  refine congrArg some ?_
  cases r with
  | mk rid iid uid ld dd ret =>
    simp at hret
    rw [hret]

/-- C9 (amended): `updateLoanRecord` raises no error when the record id is not
currently stored and behaves as an upsert in all three backends.  For the
In-Memory and Caching backends the subsequent `loadLoanRecord` returns the
record exactly (and other ids are unaffected).  For the File backend the
record's row is appended and the subsequent load returns the record exactly
when it has a return date and its three date fields survive the backend's own
serialize/parse cycle (which truncates to midnight); otherwise the load
returns a truncated record or — for a record without a return date — nothing,
as the counterexample shows. -/
theorem updateLoanRecord_upsert_amended
    (S : InMemoryState) (cs : CachingState) (content : String) (r : LoanRecord) (rt : Int)
    (hmem : memLoadLoanRecord S r.recordId = none)
    (hcache : cachingLoadLoanRecord cs r.recordId = none)
    (hrows : ∀ row ∈ readCsvFile content, benignRow row)
    (hnomatch : ∀ row ∈ readCsvFile content, row.head? ≠ some r.recordId)
    (hrid : r.recordId ≠ "") (hiid : r.itemId ≠ "") (huid : r.userId ≠ "")
    (hbrid : benignField r.recordId) (hbiid : benignField r.itemId)
    (hbuid : benignField r.userId)
    (hret : r.returnDate = some rt)
    (hld : parseDateFull (formatDateTime r.loanDate) = some r.loanDate)
    (hdd : parseDateFull (formatDateTime r.dueDate) = some r.dueDate)
    (hrt : parseDateFull (formatDateTime rt) = some rt)
    (hinv : r.loanDate ≤ r.dueDate) (hinv2 : r.loanDate ≤ rt) :
    memLoadLoanRecord (memUpdateLoanRecord S r) r.recordId = some r ∧
    (∀ k, k ≠ r.recordId → memLoadLoanRecord (memUpdateLoanRecord S r) k =
      memLoadLoanRecord S k) ∧
    cachingLoadLoanRecord (cachingUpdateLoanRecord cs r) r.recordId = some r ∧
    fileLoadLoanRecord (fileUpdateLoanRecord content r) r.recordId = some r := by
  refine ⟨mapFind_upsert_self _ _ S.loans,
    fun k hk => mapFind_upsert_ne r.recordId k r S.loans hk,
    mapFind_upsert_self _ _ cs.mem.loans, ?_⟩
  have hser : serializeLoanRow r = [r.recordId, r.itemId, r.userId,
      formatDateTime r.loanDate, formatDateTime r.dueDate, formatDateTime rt] :=
    serializeLoanRow_ret r rt hret
  have hserbenign : (∀ f ∈ serializeLoanRow r, benignField f) ∧
      trimTrailingEmpty (serializeLoanRow r) ≠ [] := by
    rw [hser]
    constructor
    · intro f hf
      simp only [List.mem_cons, List.not_mem_nil, or_false] at hf
      rcases hf with rfl | rfl | rfl | rfl | rfl | rfl
      · exact hbrid
      · exact hbiid
      · exact hbuid
      · exact formatDateTime_benign _
      · exact formatDateTime_benign _
      · exact formatDateTime_benign _
    · rw [trim_eq_self _ (by
        show some (formatDateTime rt) ≠ some ""
        intro e
        exact formatDateTime_ne_empty rt (Option.some.inj e))]
      exact List.cons_ne_nil _ _
  unfold fileUpdateLoanRecord fileLoadLoanRecord
  rw [show fileUpdateLoanRecordRows r (readCsvFile content) =
      readCsvFile content ++ [serializeLoanRow r] from
    fileUpsertRow_no_match r.recordId (serializeLoanRow r) (readCsvFile content) hnomatch]
  rw [readCsv_writeCsv (readCsvFile content ++ [serializeLoanRow r]) (by
    intro row hrowm
    rcases List.mem_append.mp hrowm with h1 | h1
    · obtain ⟨hne, hlast, hben⟩ := hrows row h1
      refine ⟨hben, ?_⟩
      rw [trim_eq_self row hlast]
      exact hne
    · rcases List.mem_cons.mp h1 with h2 | h2
      · exact h2 ▸ hserbenign
      · exact absurd h2 (List.not_mem_nil row))]
  rw [List.map_append]
  have hmaptrim : (readCsvFile content).map trimTrailingEmpty = readCsvFile content :=
    (List.map_congr_left fun row hr => trim_eq_self row (hrows row hr).2.1).trans
      (List.map_id _)
  rw [hmaptrim]
  rw [show List.map trimTrailingEmpty [serializeLoanRow r] = [serializeLoanRow r] from by
    rw [List.map_cons, List.map_nil]
    rw [trim_eq_self _ (by
      rw [hser]
      show some (formatDateTime rt) ≠ some ""
      intro e
      exact formatDateTime_ne_empty rt (Option.some.inj e))]]
  rw [fileLoadLoanRecordRows_skip r.recordId (readCsvFile content) _ hnomatch]
  have hlen : (serializeLoanRow r).length = 6 := by
    rw [hser]
    rfl
  have hhead : (serializeLoanRow r).head? = some r.recordId := by
    rw [hser]
    rfl
  show fileLoadLoanRecordRows r.recordId [serializeLoanRow r] = some r
  simp only [fileLoadLoanRecordRows, if_pos (And.intro hlen hhead)]
  rw [fileParseLoanRow_serialize r rt hrid hiid huid hret hld hdd hrt hinv hinv2]

/-- Witness for amended C9: empty stores, an empty loans file, and a concrete
returned record with midnight-aligned dates. -/
theorem updateLoanRecord_upsert_amended_witness :
    memLoadLoanRecord (memUpdateLoanRecord InMemoryState.empty
      ⟨"loan_7", "b1", "u1", 1704067200, 1705276800, some 1705276800⟩) "loan_7" =
      some ⟨"loan_7", "b1", "u1", 1704067200, 1705276800, some 1705276800⟩ ∧
    (∀ k, k ≠ "loan_7" → memLoadLoanRecord (memUpdateLoanRecord InMemoryState.empty
      ⟨"loan_7", "b1", "u1", 1704067200, 1705276800, some 1705276800⟩) k =
      memLoadLoanRecord InMemoryState.empty k) ∧
    cachingLoadLoanRecord (cachingUpdateLoanRecord ⟨InMemoryState.empty, "", "", "", ""⟩
      ⟨"loan_7", "b1", "u1", 1704067200, 1705276800, some 1705276800⟩) "loan_7" =
      some ⟨"loan_7", "b1", "u1", 1704067200, 1705276800, some 1705276800⟩ ∧
    fileLoadLoanRecord (fileUpdateLoanRecord ""
      ⟨"loan_7", "b1", "u1", 1704067200, 1705276800, some 1705276800⟩) "loan_7" =
      some ⟨"loan_7", "b1", "u1", 1704067200, 1705276800, some 1705276800⟩ :=
  updateLoanRecord_upsert_amended InMemoryState.empty ⟨InMemoryState.empty, "", "", "", ""⟩
    "" ⟨"loan_7", "b1", "u1", 1704067200, 1705276800, some 1705276800⟩ 1705276800
    rfl rfl (by decide) (by decide) (by decide) (by decide) (by decide)
    (by decide) (by decide) (by decide) rfl (by decide) (by decide) (by decide)
    (by decide) (by decide)

/-! ### Persist-all (C2) -/

/-- C2 counterexample: the caching store holds only author `a2` in memory
while the authors file still holds `a1` (loaded earlier and since deleted from
memory).  `persistAllToFile` upserts `a2` but does not remove `a1`: after the
persist, `a1` is loadable from the authors file while absent from memory,
refuting "every entity absent from memory is absent from the files, because
the persist overwrites the previous file state". -/
theorem persistAll_stale_author_cex :
    persistAllToFile ⟨⟨[("a2", ⟨"a2", "Bob"⟩)], [], [], []⟩, "a1,Alice\n", "", "", ""⟩ =
      some ⟨⟨[("a2", ⟨"a2", "Bob"⟩)], [], [], []⟩, "a1,Alice\na2,Bob\n", "", "", ""⟩ ∧
    memLoadAuthor ⟨[("a2", ⟨"a2", "Bob"⟩)], [], [], []⟩ "a1" = none ∧
    fileLoadAuthor "a1,Alice\na2,Bob\n" "a1" = .ok (some ⟨"a1", "Alice"⟩) := by
  refine ⟨by decide, rfl, rfl⟩

theorem fileSavePairRows_spec (k v : String) (rows : List (List String))
    (hlen : ∀ row ∈ rows, row.length = 2) :
    ∃ rows2, fileSavePairRows k v rows = some rows2 ∧
      [k, v] ∈ rows2 ∧
      (∀ row ∈ rows, row.head? ≠ some k → row ∈ rows2) ∧
      (∀ row ∈ rows2, row ∈ rows ∨ row = [k, v]) := by
  induction rows with
  | nil =>
    refine ⟨[[k, v]], rfl, by simp, by simp, by simp⟩
  | cons fields rest ih =>
    by_cases hm : fields ≠ [] ∧ fields.head? = some k
    · obtain ⟨f0, f1, rfl⟩ : ∃ f0 f1, fields = [f0, f1] := by
        have h2 := hlen fields (by simp)
        match fields, h2 with
        | [a, b], _ => exact ⟨a, b, rfl⟩
      have hf0 : k = f0 := by
        have h3 := hm.2
        exact (by simpa using h3 : f0 = k).symm
      subst hf0
      refine ⟨[k, v] :: rest, ?_, by simp, ?_, ?_⟩
      · simp only [fileSavePairRows, if_pos hm]
        rw [if_pos (show 2 ≤ ([k, f1] : List String).length by simp)]
        rfl
      · intro row hrow hh
        rcases List.mem_cons.mp hrow with rfl | h4
        · exact absurd hm.2 hh
        · exact List.mem_cons.mpr (Or.inr h4)
      · intro row hrow
        rcases List.mem_cons.mp hrow with rfl | h4
        · exact Or.inr rfl
        · exact Or.inl (List.mem_cons.mpr (Or.inr h4))
    · obtain ⟨rows2, heq, hmem, hpres, hconv⟩ :=
        ih fun row hr => hlen row (List.mem_cons.mpr (Or.inr hr))
      refine ⟨fields :: rows2, ?_, List.mem_cons.mpr (Or.inr hmem), ?_, ?_⟩
      · simp only [fileSavePairRows, if_neg hm, heq]
        rfl
      · intro row hrow hh
        rcases List.mem_cons.mp hrow with rfl | h4
        · exact List.mem_cons.mpr (Or.inl rfl)
        · exact List.mem_cons.mpr (Or.inr (hpres row h4 hh))
      · intro row hrow
        rcases List.mem_cons.mp hrow with rfl | h4
        · exact Or.inl (List.mem_cons.mpr (Or.inl rfl))
        · rcases hconv row h4 with h5 | h5
          · exact Or.inl (List.mem_cons.mpr (Or.inr h5))
          · exact Or.inr h5

theorem fileUpsertRow_spec (rid : String) (newRow : List String)
    (rows : List (List String)) :
    newRow ∈ fileUpsertRow rid newRow rows ∧
    (∀ row ∈ rows, row.head? ≠ some rid → row ∈ fileUpsertRow rid newRow rows) ∧
    (∀ row ∈ fileUpsertRow rid newRow rows, row ∈ rows ∨ row = newRow) := by
  induction rows with
  | nil =>
    refine ⟨by simp [fileUpsertRow], by simp, by simp [fileUpsertRow]⟩
  | cons fields rest ih =>
    obtain ⟨hmem, hpres, hconv⟩ := ih
    by_cases hm : fields ≠ [] ∧ fields.head? = some rid
    · rw [show fileUpsertRow rid newRow (fields :: rest) = newRow :: rest from by
        simp only [fileUpsertRow, if_pos hm]]
      refine ⟨List.mem_cons.mpr (Or.inl rfl), ?_, ?_⟩
      · intro row hrow hh
        rcases List.mem_cons.mp hrow with rfl | h4
        · exact absurd hm.2 hh
        · exact List.mem_cons.mpr (Or.inr h4)
      · intro row hrow
        rcases List.mem_cons.mp hrow with rfl | h4
        · exact Or.inr rfl
        · exact Or.inl (List.mem_cons.mpr (Or.inr h4))
    · rw [show fileUpsertRow rid newRow (fields :: rest) =
          fields :: fileUpsertRow rid newRow rest from by
        simp only [fileUpsertRow, if_neg hm]]
      refine ⟨List.mem_cons.mpr (Or.inr hmem), ?_, ?_⟩
      · intro row hrow hh
        rcases List.mem_cons.mp hrow with rfl | h4
        · exact List.mem_cons.mpr (Or.inl rfl)
        · exact List.mem_cons.mpr (Or.inr (hpres row h4 hh))
      · intro row hrow
        rcases List.mem_cons.mp hrow with rfl | h4
        · exact Or.inl (List.mem_cons.mpr (Or.inl rfl))
        · rcases hconv row h4 with h5 | h5
          · exact Or.inl (List.mem_cons.mpr (Or.inr h5))
          · exact Or.inr h5

theorem trim_subset (row : List String) : trimTrailingEmpty row ⊆ row := by
  unfold trimTrailingEmpty
  by_cases hl : row.getLast? = some ""
  · rw [if_pos hl]
    exact List.dropLast_subset row
  · rw [if_neg hl]
    exact fun _ h => h

theorem foldlM_map_eq {m : Type → Type} [Monad m] {α β σ : Type} (g : α → β)
    (f : σ → β → m σ) (l : List α) : ∀ init : σ,
    List.foldlM f init (l.map g) = List.foldlM (fun s a => f s (g a)) init l := by
  induction l with
  | nil => intro init; rfl
  | cons a rest ih =>
    intro init
    rw [List.map_cons, List.foldlM_cons, List.foldlM_cons]
    exact congrArg _ (funext fun s => ih s)

theorem fileSavePair_content_step (c : String) (k v : String)
    (hwf : ∀ row ∈ readCsvFile c, benignRow row ∧ row.length = 2)
    (hbk : benignField k) (hbv : benignField v) (hv : v ≠ "") :
    ∃ c2, Option.map writeCsvFile (fileSavePairRows k v (readCsvFile c)) = some c2 ∧
      (∀ row ∈ readCsvFile c2, benignRow row ∧ row.length = 2) ∧
      [k, v] ∈ readCsvFile c2 ∧
      (∀ row ∈ readCsvFile c, row.head? ≠ some k → row ∈ readCsvFile c2) ∧
      (∀ row ∈ readCsvFile c2, row ∈ readCsvFile c ∨ row = [k, v]) := by
  obtain ⟨rows2, heq, hmem, hpres, hconv⟩ :=
    fileSavePairRows_spec k v (readCsvFile c) fun row hr => (hwf row hr).2
  have hrows2wf : ∀ row ∈ rows2, benignRow row ∧ row.length = 2 := by
    intro row hr
    rcases hconv row hr with h1 | rfl
    · exact hwf row h1
    · refine ⟨⟨List.cons_ne_nil _ _, ?_, ?_⟩, rfl⟩
      · rw [show ([k, v] : List String).getLast? = some v from rfl]
        intro e
        exact hv (Option.some.inj e)
      · intro f hf
        rcases (by simpa using hf : f = k ∨ f = v) with rfl | rfl
        · exact hbk
        · exact hbv
  have hread : readCsvFile (writeCsvFile rows2) = rows2 := by
    rw [readCsv_writeCsv rows2 fun row hr => ⟨(hrows2wf row hr).1.2.2, by
      rw [trim_eq_self row (hrows2wf row hr).1.2.1]
      exact (hrows2wf row hr).1.1⟩]
    exact (List.map_congr_left fun row hr =>
      trim_eq_self row (hrows2wf row hr).1.2.1).trans (List.map_id rows2)
  refine ⟨writeCsvFile rows2, by rw [heq]; rfl, ?_, ?_, ?_, ?_⟩
  · rw [hread]
    exact hrows2wf
  · rw [hread]
    exact hmem
  · intro row h hh
    rw [hread]
    exact hpres row h hh
  · rw [hread]
    exact hconv

theorem fileSavePair_fold (ps : List (String × String)) : ∀ c0 : String,
    (∀ row ∈ readCsvFile c0, benignRow row ∧ row.length = 2) →
    (∀ p ∈ ps, benignField p.1 ∧ benignField p.2 ∧ p.2 ≠ "") →
    (ps.map Prod.fst).Nodup →
    ∃ c1, List.foldlM
        (fun c p => Option.map writeCsvFile (fileSavePairRows p.1 p.2 (readCsvFile c)))
        c0 ps = some c1 ∧
      (∀ row ∈ readCsvFile c1, benignRow row ∧ row.length = 2) ∧
      (∀ p ∈ ps, [p.1, p.2] ∈ readCsvFile c1) ∧
      (∀ row ∈ readCsvFile c0,
        (∀ p ∈ ps, row.head? ≠ some p.1) → row ∈ readCsvFile c1) := by
  induction ps with
  | nil =>
    intro c0 hwf _ _
    exact ⟨c0, rfl, hwf, by simp, fun row h _ => h⟩
  | cons p ps ih =>
    intro c0 hwf hben hnd
    obtain ⟨hp1, hnd2⟩ := List.nodup_cons.mp hnd
    obtain ⟨c2, hstep, hwf2, hmem2, hpres2, _⟩ :=
      fileSavePair_content_step c0 p.1 p.2 hwf (hben p (by simp)).1
        (hben p (by simp)).2.1 (hben p (by simp)).2.2
    obtain ⟨c1, hfold, hwf1, hmem1, hpres1⟩ :=
      ih c2 hwf2 (fun q hq => hben q (List.mem_cons.mpr (Or.inr hq))) hnd2
    refine ⟨c1, ?_, hwf1, ?_, ?_⟩
    · rw [List.foldlM_cons, hstep]
      show List.foldlM _ c2 ps = some c1
      exact hfold
    · intro q hq
      rcases List.mem_cons.mp hq with rfl | hq2
      · refine hpres1 [q.1, q.2] hmem2 ?_
        intro q2 hq2m
        rw [show ([q.1, q.2] : List String).head? = some q.1 from rfl]
        intro e
        exact hp1 (by
          rw [show q.1 = q2.1 from Option.some.inj e]
          exact List.mem_map.mpr ⟨q2, hq2m, rfl⟩)
      · exact hmem1 q hq2
    · intro row hrow hh
      refine hpres1 row (hpres2 row hrow (hh p (by simp))) ?_
      intro q hq
      exact hh q (List.mem_cons.mpr (Or.inr hq))

theorem fileUpsertRow_content_step (c : String) (rid : String) (newRow : List String)
    (hwf : ∀ row ∈ readCsvFile c, benignRow row)
    (hben : ∀ f ∈ newRow, benignField f)
    (htrim : trimTrailingEmpty newRow ≠ [])
    (hstable : (trimTrailingEmpty newRow).getLast? ≠ some "") :
    (∀ row ∈ readCsvFile (writeCsvFile (fileUpsertRow rid newRow (readCsvFile c))),
      benignRow row) ∧
    trimTrailingEmpty newRow ∈
      readCsvFile (writeCsvFile (fileUpsertRow rid newRow (readCsvFile c))) ∧
    (∀ row ∈ readCsvFile c, row.head? ≠ some rid →
      row ∈ readCsvFile (writeCsvFile (fileUpsertRow rid newRow (readCsvFile c)))) := by
  obtain ⟨hmem, hpres, hconv⟩ := fileUpsertRow_spec rid newRow (readCsvFile c)
  have hread : readCsvFile (writeCsvFile (fileUpsertRow rid newRow (readCsvFile c))) =
      (fileUpsertRow rid newRow (readCsvFile c)).map trimTrailingEmpty := by
    refine readCsv_writeCsv _ fun row hr => ?_
    rcases hconv row hr with h1 | rfl
    · refine ⟨(hwf row h1).2.2, ?_⟩
      rw [trim_eq_self row (hwf row h1).2.1]
      exact (hwf row h1).1
    · exact ⟨hben, htrim⟩
  rw [hread]
  refine ⟨?_, List.mem_map.mpr ⟨newRow, hmem, rfl⟩, ?_⟩
  · intro row hrow
    obtain ⟨row0, hrow0, rfl⟩ := List.mem_map.mp hrow
    rcases hconv row0 hrow0 with h1 | rfl
    · rw [trim_eq_self row0 (hwf row0 h1).2.1]
      exact hwf row0 h1
    · exact ⟨htrim, hstable, fun f hf => hben f (trim_subset row0 hf)⟩
  · intro row hrow hh
    refine List.mem_map.mpr ⟨row, hpres row hrow hh, trim_eq_self row (hwf row hrow).2.1⟩

theorem fileUpsert_fold {α : Type} (key : α → String) (ser : α → List String)
    (xs : List α) : ∀ c0 : String,
    (∀ row ∈ readCsvFile c0, benignRow row) →
    (∀ x ∈ xs, (∀ f ∈ ser x, benignField f) ∧ trimTrailingEmpty (ser x) ≠ [] ∧
      (trimTrailingEmpty (ser x)).getLast? ≠ some "" ∧
      (trimTrailingEmpty (ser x)).head? = some (key x)) →
    (xs.map key).Nodup →
    (∀ row ∈ readCsvFile (xs.foldl
        (fun c x => writeCsvFile (fileUpsertRow (key x) (ser x) (readCsvFile c))) c0),
      benignRow row) ∧
    (∀ x ∈ xs, trimTrailingEmpty (ser x) ∈ readCsvFile (xs.foldl
      (fun c x => writeCsvFile (fileUpsertRow (key x) (ser x) (readCsvFile c))) c0)) ∧
    (∀ row ∈ readCsvFile c0, (∀ x ∈ xs, row.head? ≠ some (key x)) →
      row ∈ readCsvFile (xs.foldl
        (fun c x => writeCsvFile (fileUpsertRow (key x) (ser x) (readCsvFile c))) c0)) := by
  induction xs with
  | nil =>
    intro c0 hwf _ _
    exact ⟨hwf, by simp, fun row h _ => h⟩
  | cons x xs ih =>
    intro c0 hwf hben hnd
    obtain ⟨hx1, hnd2⟩ := List.nodup_cons.mp hnd
    obtain ⟨hwf2, hmem2, hpres2⟩ := fileUpsertRow_content_step c0 (key x) (ser x)
      hwf (hben x (by simp)).1 (hben x (by simp)).2.1 (hben x (by simp)).2.2.1
    obtain ⟨hwf1, hmem1, hpres1⟩ := ih
      (writeCsvFile (fileUpsertRow (key x) (ser x) (readCsvFile c0))) hwf2
      (fun y hy => hben y (List.mem_cons.mpr (Or.inr hy))) hnd2
    refine ⟨hwf1, ?_, ?_⟩
    · intro y hy
      rcases List.mem_cons.mp hy with rfl | hy2
      · refine hpres1 _ hmem2 ?_
        intro y2 hy2m
        rw [(hben y (by simp)).2.2.2]
        intro e
        exact hx1 (by
          rw [show key y = key y2 from Option.some.inj e]
          exact List.mem_map.mpr ⟨y2, hy2m, rfl⟩)
      · exact hmem1 y hy2
    · intro row hrow hh
      refine hpres1 row (hpres2 row hrow (hh x (by simp))) ?_
      intro y hy
      exact hh y (List.mem_cons.mpr (Or.inr hy))

theorem serializeBookRow_getLast (b : Book) :
    (serializeBookRow b).getLast? = some (natToDecStr (statusToNat b.status)) := rfl

theorem serializeBookRow_stable (b : Book) :
    trimTrailingEmpty (serializeBookRow b) = serializeBookRow b := by
  refine trim_eq_self _ ?_
  rw [serializeBookRow_getLast b]
  intro e
  exact natToDecStr_ne_empty _ (Option.some.inj e)

theorem serializeLoanRow_trim_facts (r : LoanRecord) :
    trimTrailingEmpty (serializeLoanRow r) ≠ [] ∧
    (trimTrailingEmpty (serializeLoanRow r)).getLast? ≠ some "" ∧
    (trimTrailingEmpty (serializeLoanRow r)).head? = some r.recordId := by
  cases hr : r.returnDate with
  | some rt =>
    rw [serializeLoanRow_ret r rt hr]
    rw [trim_eq_self _ (by
      rw [show ([r.recordId, r.itemId, r.userId, formatDateTime r.loanDate,
        formatDateTime r.dueDate, formatDateTime rt] : List String).getLast? =
        some (formatDateTime rt) from rfl]
      intro e
      exact formatDateTime_ne_empty rt (Option.some.inj e))]
    refine ⟨List.cons_ne_nil _ _, ?_, rfl⟩
    intro e
    exact formatDateTime_ne_empty rt (Option.some.inj e)
  | none =>
    rw [show serializeLoanRow r = [r.recordId, r.itemId, r.userId,
        formatDateTime r.loanDate, formatDateTime r.dueDate, ""] from by
      unfold serializeLoanRow
      rw [hr]]
    rw [show trimTrailingEmpty [r.recordId, r.itemId, r.userId,
        formatDateTime r.loanDate, formatDateTime r.dueDate, ""] =
        [r.recordId, r.itemId, r.userId, formatDateTime r.loanDate,
          formatDateTime r.dueDate] from by
      unfold trimTrailingEmpty
      rw [if_pos (show ([r.recordId, r.itemId, r.userId, formatDateTime r.loanDate,
        formatDateTime r.dueDate, ""] : List String).getLast? = some "" from rfl)]
      rfl]
    refine ⟨List.cons_ne_nil _ _, ?_, rfl⟩
    rw [show ([r.recordId, r.itemId, r.userId, formatDateTime r.loanDate,
      formatDateTime r.dueDate] : List String).getLast? =
      some (formatDateTime r.dueDate) from rfl]
    intro e
    exact formatDateTime_ne_empty _ (Option.some.inj e)

/-- C2 (amended): `persistAllToFile` upserts every in-memory entity into the
corresponding file — every in-memory author, user, item and loan record is
present in the files afterwards (a loan record without a return date is
present as its written row re-read, i.e. without the trailing empty field) —
but it does not overwrite the file state: file records whose ids do not occur
in memory (for example entities deleted from memory since the last persist)
remain in the files, as the counterexample shows. -/
theorem persistAll_upserts_memory_state (st : CachingState)
    (hAwf : ∀ row ∈ readCsvFile st.fileAuthors, benignRow row ∧ row.length = 2)
    (hUwf : ∀ row ∈ readCsvFile st.fileUsers, benignRow row ∧ row.length = 2)
    (hIwf : ∀ row ∈ readCsvFile st.fileItems, benignRow row)
    (hLwf : ∀ row ∈ readCsvFile st.fileLoans, benignRow row)
    (hAben : ∀ a ∈ memLoadAllAuthors st.mem,
      benignField a.id ∧ benignField a.name ∧ a.name ≠ "")
    (hUben : ∀ u ∈ memLoadAllUsers st.mem,
      benignField u.userId ∧ benignField u.name ∧ u.name ≠ "")
    (hIben : ∀ b ∈ memLoadAllLibraryItems st.mem, ∀ f ∈ serializeBookRow b, benignField f)
    (hLben : ∀ r ∈ memLoadAllLoanRecords st.mem, ∀ f ∈ serializeLoanRow r, benignField f)
    (hAnd : ((memLoadAllAuthors st.mem).map Author.id).Nodup)
    (hUnd : ((memLoadAllUsers st.mem).map User.userId).Nodup)
    (hInd : ((memLoadAllLibraryItems st.mem).map Book.id).Nodup)
    (hLnd : ((memLoadAllLoanRecords st.mem).map LoanRecord.recordId).Nodup) :
    ∃ st2, persistAllToFile st = some st2 ∧ st2.mem = st.mem ∧
      (∀ a ∈ memLoadAllAuthors st.mem, [a.id, a.name] ∈ readCsvFile st2.fileAuthors) ∧
      (∀ u ∈ memLoadAllUsers st.mem, [u.userId, u.name] ∈ readCsvFile st2.fileUsers) ∧
      (∀ b ∈ memLoadAllLibraryItems st.mem, serializeBookRow b ∈ readCsvFile st2.fileItems) ∧
      (∀ r ∈ memLoadAllLoanRecords st.mem,
        trimTrailingEmpty (serializeLoanRow r) ∈ readCsvFile st2.fileLoans) ∧
      (∀ row ∈ readCsvFile st.fileAuthors,
        (∀ a ∈ memLoadAllAuthors st.mem, row.head? ≠ some a.id) →
        row ∈ readCsvFile st2.fileAuthors) ∧
      (∀ row ∈ readCsvFile st.fileLoans,
        (∀ r ∈ memLoadAllLoanRecords st.mem, row.head? ≠ some r.recordId) →
        row ∈ readCsvFile st2.fileLoans) := by
  obtain ⟨fa, hfaEq, _, hfaMem, hfaPres⟩ :=
    fileSavePair_fold ((memLoadAllAuthors st.mem).map fun a => (a.id, a.name))
      st.fileAuthors hAwf
      (by
        intro p hp
        obtain ⟨a, ha, rfl⟩ := List.mem_map.mp hp
        exact hAben a ha)
      (by
        rw [List.map_map]
        exact hAnd)
  obtain ⟨fu, hfuEq, _, hfuMem, _⟩ :=
    fileSavePair_fold ((memLoadAllUsers st.mem).map fun u => (u.userId, u.name))
      st.fileUsers hUwf
      (by
        intro p hp
        obtain ⟨u, hu, rfl⟩ := List.mem_map.mp hp
        exact hUben u hu)
      (by
        rw [List.map_map]
        exact hUnd)
  obtain ⟨_, hfiMem, _⟩ :=
    fileUpsert_fold Book.id serializeBookRow (memLoadAllLibraryItems st.mem)
      st.fileItems hIwf
      (by
        intro b hb
        rw [serializeBookRow_stable b]
        refine ⟨hIben b hb, List.cons_ne_nil _ _, ?_, rfl⟩
        rw [serializeBookRow_getLast b]
        intro e
        exact natToDecStr_ne_empty _ (Option.some.inj e))
      hInd
  obtain ⟨_, hflMem, hflPres⟩ :=
    fileUpsert_fold LoanRecord.recordId serializeLoanRow (memLoadAllLoanRecords st.mem)
      st.fileLoans hLwf
      (by
        intro r hr
        obtain ⟨h1, h2, h3⟩ := serializeLoanRow_trim_facts r
        exact ⟨hLben r hr, h1, h2, h3⟩)
      hLnd
  have hfa : (memLoadAllAuthors st.mem).foldlM (fun c a => fileSaveAuthor c a)
      st.fileAuthors = some fa :=
    ((foldlM_map_eq (fun a : Author => (a.id, a.name))
      (fun c p => Option.map writeCsvFile (fileSavePairRows p.1 p.2 (readCsvFile c)))
      (memLoadAllAuthors st.mem) st.fileAuthors).symm.trans hfaEq : _)
  have hfu : (memLoadAllUsers st.mem).foldlM (fun c u => fileSaveUser c u)
      st.fileUsers = some fu :=
    ((foldlM_map_eq (fun u : User => (u.userId, u.name))
      (fun c p => Option.map writeCsvFile (fileSavePairRows p.1 p.2 (readCsvFile c)))
      (memLoadAllUsers st.mem) st.fileUsers).symm.trans hfuEq : _)
  refine ⟨⟨st.mem, fa, fu,
    (memLoadAllLibraryItems st.mem).foldl
      (fun c b => fileSaveLibraryItem c b) st.fileItems,
    (memLoadAllLoanRecords st.mem).foldl
      (fun c r => fileSaveLoanRecord c r) st.fileLoans⟩, ?_, rfl, ?_, ?_, ?_, hflMem,
    ?_, hflPres⟩
  · unfold persistAllToFile
    rw [hfa, hfu]
    rfl
  · intro a ha
    exact hfaMem (a.id, a.name) (List.mem_map.mpr ⟨a, ha, rfl⟩)
  · intro u hu
    exact hfuMem (u.userId, u.name) (List.mem_map.mpr ⟨u, hu, rfl⟩)
  · intro b hb
    rw [← serializeBookRow_stable b]
    exact hfiMem b hb
  · intro row hrow hh
    refine hfaPres row hrow ?_
    intro p hp
    obtain ⟨a, ha, rfl⟩ := List.mem_map.mp hp
    exact hh a ha

/-- Witness for amended C2 with one entity of each kind in memory and one
stale author row in the file store. -/
theorem persistAll_upserts_memory_state_witness :
    ∃ st2, persistAllToFile ⟨⟨[("a2", ⟨"a2", "Bob"⟩), ("a9", ⟨"a9", "Zoe"⟩)],
        [("u1", ⟨"u1", "Uma"⟩)],
        [("b1", ⟨"b1", "T", some ⟨"a2", "Bob"⟩, "I", 2000, .AVAILABLE⟩)],
        [("loan_1", ⟨"loan_1", "b1", "u1", 1704067200, 1705276800, none⟩)]⟩,
        "a1,Alice\n", "", "", ""⟩ = some st2 ∧
      st2.mem = ⟨[("a2", ⟨"a2", "Bob"⟩), ("a9", ⟨"a9", "Zoe"⟩)], [("u1", ⟨"u1", "Uma"⟩)],
        [("b1", ⟨"b1", "T", some ⟨"a2", "Bob"⟩, "I", 2000, .AVAILABLE⟩)],
        [("loan_1", ⟨"loan_1", "b1", "u1", 1704067200, 1705276800, none⟩)]⟩ ∧
      (∀ a ∈ memLoadAllAuthors ⟨[("a2", ⟨"a2", "Bob"⟩), ("a9", ⟨"a9", "Zoe"⟩)],
        [("u1", ⟨"u1", "Uma"⟩)],
        [("b1", ⟨"b1", "T", some ⟨"a2", "Bob"⟩, "I", 2000, .AVAILABLE⟩)],
        [("loan_1", ⟨"loan_1", "b1", "u1", 1704067200, 1705276800, none⟩)]⟩,
        [a.id, a.name] ∈ readCsvFile st2.fileAuthors) ∧
      (∀ u ∈ memLoadAllUsers ⟨[("a2", ⟨"a2", "Bob"⟩), ("a9", ⟨"a9", "Zoe"⟩)],
        [("u1", ⟨"u1", "Uma"⟩)],
        [("b1", ⟨"b1", "T", some ⟨"a2", "Bob"⟩, "I", 2000, .AVAILABLE⟩)],
        [("loan_1", ⟨"loan_1", "b1", "u1", 1704067200, 1705276800, none⟩)]⟩,
        [u.userId, u.name] ∈ readCsvFile st2.fileUsers) ∧
      (∀ b ∈ memLoadAllLibraryItems ⟨[("a2", ⟨"a2", "Bob"⟩), ("a9", ⟨"a9", "Zoe"⟩)],
        [("u1", ⟨"u1", "Uma"⟩)],
        [("b1", ⟨"b1", "T", some ⟨"a2", "Bob"⟩, "I", 2000, .AVAILABLE⟩)],
        [("loan_1", ⟨"loan_1", "b1", "u1", 1704067200, 1705276800, none⟩)]⟩,
        serializeBookRow b ∈ readCsvFile st2.fileItems) ∧
      (∀ r ∈ memLoadAllLoanRecords ⟨[("a2", ⟨"a2", "Bob"⟩), ("a9", ⟨"a9", "Zoe"⟩)],
        [("u1", ⟨"u1", "Uma"⟩)],
        [("b1", ⟨"b1", "T", some ⟨"a2", "Bob"⟩, "I", 2000, .AVAILABLE⟩)],
        [("loan_1", ⟨"loan_1", "b1", "u1", 1704067200, 1705276800, none⟩)]⟩,
        trimTrailingEmpty (serializeLoanRow r) ∈ readCsvFile st2.fileLoans) ∧
      (∀ row ∈ readCsvFile "a1,Alice\n",
        (∀ a ∈ memLoadAllAuthors ⟨[("a2", ⟨"a2", "Bob"⟩), ("a9", ⟨"a9", "Zoe"⟩)],
          [("u1", ⟨"u1", "Uma"⟩)],
          [("b1", ⟨"b1", "T", some ⟨"a2", "Bob"⟩, "I", 2000, .AVAILABLE⟩)],
          [("loan_1", ⟨"loan_1", "b1", "u1", 1704067200, 1705276800, none⟩)]⟩,
          row.head? ≠ some a.id) →
        row ∈ readCsvFile st2.fileAuthors) ∧
      (∀ row ∈ readCsvFile "",
        (∀ r ∈ memLoadAllLoanRecords ⟨[("a2", ⟨"a2", "Bob"⟩), ("a9", ⟨"a9", "Zoe"⟩)],
          [("u1", ⟨"u1", "Uma"⟩)],
          [("b1", ⟨"b1", "T", some ⟨"a2", "Bob"⟩, "I", 2000, .AVAILABLE⟩)],
          [("loan_1", ⟨"loan_1", "b1", "u1", 1704067200, 1705276800, none⟩)]⟩,
          row.head? ≠ some r.recordId) →
        row ∈ readCsvFile st2.fileLoans) :=
  persistAll_upserts_memory_state
    ⟨⟨[("a2", ⟨"a2", "Bob"⟩), ("a9", ⟨"a9", "Zoe"⟩)], [("u1", ⟨"u1", "Uma"⟩)],
      [("b1", ⟨"b1", "T", some ⟨"a2", "Bob"⟩, "I", 2000, .AVAILABLE⟩)],
      [("loan_1", ⟨"loan_1", "b1", "u1", 1704067200, 1705276800, none⟩)]⟩,
      "a1,Alice\n", "", "", ""⟩
    (by decide) (by decide) (by decide) (by decide) (by decide) (by decide)
    (by decide) (by decide) (by decide) (by decide) (by decide) (by decide)

/-! ### Overdue processing (C7) -/

theorem overdueLoop_eq_filter_map (S : InMemoryState) (today : Int)
    (loans : List LoanRecord) :
    overdueLoop S today loans =
      (loans.filter fun r => isOverdue today r).map fun r => (r.userId, overdueMessage S r) := by
  induction loans with
  | nil => rfl
  | cons r rest ih =>
    by_cases h : r.returnDate = none ∧ r.dueDate < today
    · rw [show overdueLoop S today (r :: rest) =
          (r.userId, overdueMessage S r) :: overdueLoop S today rest by
        simp only [overdueLoop, if_pos h]]
      rw [ih, List.filter_cons_of_pos (by simpa [isOverdue] using h), List.map_cons]
    · rw [show overdueLoop S today (r :: rest) = overdueLoop S today rest by
        simp only [overdueLoop, if_neg h]]
      rw [ih, List.filter_cons_of_neg (by simpa [isOverdue] using h)]

/-- C7: the overdue scan emits exactly one notification per loan record that
has no return date and whose due date strictly precedes the midnight boundary
`today`, and none for any other record; in the concrete scenario — one loan
due 2024-01-01 with no return date, a second due 2024-01-10, today
2024-01-05 — exactly one notification is emitted and its message carries the
first loan's id. -/
theorem processOverdueItems_spec :
    (∀ (S : InMemoryState) (today : Int),
      processOverdueItems S today =
        ((memLoadAllLoanRecords S).filter fun r => isOverdue today r).map
          fun r => (r.userId, overdueMessage S r)) ∧
    processOverdueItems
        ⟨[], [], [],
          [("loan_1", ⟨"loan_1", "b1", "u1", 1702080000, 1704067200, none⟩),
           ("loan_2", ⟨"loan_2", "b2", "u2", 1702080000, 1704844800, none⟩)]⟩
        1704412800 =
      [("u1", "Dear Unknown User, the item " ++ sq ++ "Unknown Item" ++ sq ++
        " (Loan ID: " ++ "loan_1" ++ ") was due on " ++ "2024-01-01" ++
        ". Please return it as soon as possible.")] := by
  constructor
  · intro S today
    exact overdueLoop_eq_filter_map S today (memLoadAllLoanRecords S)
  · decide

/-! ### File-backend safety of the author/user update branch (C10) -/

theorem fileSavePairRows_isSome (k v : String) (rows : List (List String))
    (h : ∀ row ∈ rows, row.head? = some k → 2 ≤ row.length) :
    ∃ rows2, fileSavePairRows k v rows = some rows2 := by
  induction rows with
  | nil => exact ⟨[[k, v]], rfl⟩
  | cons fields rest ih =>
    by_cases hm : fields ≠ [] ∧ fields.head? = some k
    · have hlen : 2 ≤ fields.length := h fields (by simp) hm.2
      exact ⟨fields.set 1 v :: rest, by
        simp only [fileSavePairRows, if_pos hm, if_pos hlen]⟩
    · obtain ⟨rows2, h2⟩ := ih fun row hr => h row (by simp [hr])
      refine ⟨fields :: rows2, ?_⟩
      simp only [fileSavePairRows, if_neg hm, h2]
      rfl

/-- C10 counterexample: the claim asserts the update branch is in bounds even
for records with fewer than two fields, but the read routine produces the
one-field record `["a1"]` from the line `a1`, and saving an author with id
`a1` over that file then assigns index 1 of a one-element record — out of
bounds (modelled as `none`). -/
theorem fileSaveAuthor_short_row_cex :
    readCsvFile "a1" = [["a1"]] ∧ fileSaveAuthor "a1" ⟨"a1", "Alice"⟩ = none := by
  decide

/-- C10 amended: the second-field assignment in `saveAuthor` / `saveUser` is
in bounds precisely on file states whose records matching the saved id have at
least two fields; under that hypothesis both saves complete. -/
theorem fileSavePair_update_inbounds (contentA contentU : String) (a : Author) (u : User)
    (hA : ∀ row ∈ readCsvFile contentA, row.head? = some a.id → 2 ≤ row.length)
    (hU : ∀ row ∈ readCsvFile contentU, row.head? = some u.userId → 2 ≤ row.length) :
    (∃ c2, fileSaveAuthor contentA a = some c2) ∧
    ∃ c2, fileSaveUser contentU u = some c2 := by
  constructor
  · obtain ⟨rows2, h2⟩ := fileSavePairRows_isSome a.id a.name (readCsvFile contentA) hA
    refine ⟨writeCsvFile rows2, ?_⟩
    simp only [fileSaveAuthor, fileSaveAuthorRows, h2]
    rfl
  · obtain ⟨rows2, h2⟩ := fileSavePairRows_isSome u.userId u.name (readCsvFile contentU) hU
    refine ⟨writeCsvFile rows2, ?_⟩
    simp only [fileSaveUser, fileSaveUserRows, h2]
    rfl

/-- Witness for amended C10 on concrete two-field files. -/
theorem fileSavePair_update_inbounds_witness :
    (∃ c2, fileSaveAuthor "a1,Anna\nb2,Bill\n" ⟨"a1", "Alice"⟩ = some c2) ∧
    ∃ c2, fileSaveUser "u1,Uma\n" ⟨"u1", "Ursula"⟩ = some c2 :=
  fileSavePair_update_inbounds "a1,Anna\nb2,Bill\n" "u1,Uma\n" ⟨"a1", "Alice"⟩
    ⟨"u1", "Ursula"⟩ (by decide) (by decide)

/-! ### Missing-author item loads (C3) -/

theorem mkBook_author_none_isError (id title isbn : String) (y : Int)
    (st : AvailabilityStatus) : ∃ e, mkBook id title none isbn y st = .error e := by
  by_cases h1 : id = ""
  · exact ⟨_, by unfold mkBook; rw [if_pos h1]⟩
  by_cases h2 : title = ""
  · exact ⟨_, by unfold mkBook; rw [if_neg h1, if_pos h2]⟩
  · exact ⟨_, by unfold mkBook; rw [if_neg h1, if_neg h2, if_pos rfl]⟩

theorem fileParseBookRow_missing_author (authorsContent : String)
    (iid title aid isbn ys ss : String) (haid : aid ≠ "")
    (hauthor : fileLoadAuthor authorsContent aid = .ok none) :
    fileParseBookRow authorsContent [iid, "Book", title, aid, isbn, ys, ss] = none := by
  simp only [fileParseBookRow, if_pos haid, hauthor]
  cases hy : parseIntCpp ys with
  | none => simp
  | some y =>
    cases hs : parseIntCpp ss with
    | none => simp
    | some st =>
      obtain ⟨e, he⟩ := mkBook_author_none_isError iid title isbn y (statusOfInt st)
      simp [he]

/-- C3 counterexample: an items file whose only record references the author
id `a9`, absent from the (empty) authors file.  The claim says the load
succeeds and returns the item with no author reference; in fact the `Book`
constructor rejects a null author, the throw is caught, and the load returns
an empty optional. -/
theorem loadItem_missing_author_cex :
    fileLoadLibraryItem "b1,Book,Title1,a9,ISBN1,2000,0\n" "" "b1" = none := by
  decide

/-- C3 amended: loading an item whose record references an author id that is
absent from the authors file is tolerated in the sense that no error
propagates (the condition is logged, and a bulk load just skips the record and
continues with the remaining records), but the item is not returned without an
author reference: the single-item load yields an empty optional, because the
`Book` constructor requires an author. -/
theorem loadItem_missing_author_amended (itemsContent authorsContent : String)
    (iid title aid isbn ys ss : String) (rest : List (List String))
    (hrows : readCsvFile itemsContent = [iid, "Book", title, aid, isbn, ys, ss] :: rest)
    (haid : aid ≠ "")
    (hauthor : fileLoadAuthor authorsContent aid = .ok none) :
    fileLoadLibraryItem itemsContent authorsContent iid = none ∧
    fileLoadAllLibraryItems itemsContent authorsContent =
      rest.filterMap (itemRowLoader authorsContent) := by
  have hparse := fileParseBookRow_missing_author authorsContent iid title aid isbn ys ss
    haid hauthor
  constructor
  · unfold fileLoadLibraryItem
    rw [hrows]
    simp only [fileLoadLibraryItemRows, List.length_cons, List.head?_cons]
    rw [if_pos (by simp), if_pos (by simp)]
    exact hparse
  · unfold fileLoadAllLibraryItems
    rw [hrows, List.filterMap_cons]
    have : itemRowLoader authorsContent [iid, "Book", title, aid, isbn, ys, ss] = none := by
      unfold itemRowLoader
      rw [if_pos (by simp)]
      exact hparse
    rw [this]

/-- Witness for amended C3: the concrete one-record items file with a dangling
author reference. -/
theorem loadItem_missing_author_amended_witness :
    fileLoadLibraryItem "b1,Book,Title1,a9,ISBN1,2000,0\n" "" "b1" = none ∧
    fileLoadAllLibraryItems "b1,Book,Title1,a9,ISBN1,2000,0\n" "" =
      List.filterMap (itemRowLoader "") [] :=
  loadItem_missing_author_amended "b1,Book,Title1,a9,ISBN1,2000,0\n" ""
    "b1" "Title1" "a9" "ISBN1" "2000" "0" [] (by decide) (by decide) rfl

/-- Witness for C6 in a concrete store. -/
theorem borrow_then_return_roundtrip_witness :
    ∃ r S2 S3, borrowItem ⟨[], [("u1", ⟨"u1", "Ann"⟩)],
        [("b1", ⟨"b1", "T", some ⟨"a1", "A"⟩, "I", 2000, .AVAILABLE⟩)], []⟩
        "u1" "b1" 1000 14 0 = (.ok (r, 1), S2) ∧
      returnItem S2 "u1" "b1" 5000 = (.ok (), S3) ∧
      (∃ bf, memLoadLibraryItem S3 "b1" = some bf ∧ bf.status = .AVAILABLE) ∧
      (∃ r2 rt, memLoadLoanRecord S3 r.recordId = some r2 ∧
        r2.returnDate = some rt ∧ r2.loanDate ≤ rt) :=
  borrow_then_return_roundtrip _ "u1" "b1" 1000 5000 14 0 ⟨"u1", "Ann"⟩
    ⟨"b1", "T", some ⟨"a1", "A"⟩, "I", 2000, .AVAILABLE⟩
    (by decide) (by decide) rfl rfl rfl rfl
    (by intro r hr; simp [activeLoansForUser, memLoadLoanRecordsByUserId] at hr)
    (by omega) (by omega)

end LMS
